import Mathlib

/-!
Verification development for the `dlt-core` DLT (Diagnostic Log and Trace)
message decoder.  The Rust sources under `src/` are shallowly embedded:

* byte slices `&[u8]` become `List Nat` (each entry a byte value `< 256`;
  theorems that need the bound carry an explicit hypothesis),
* nom's streaming `IResult` becomes the `IRes` type below, with the three
  nom outcome classes `Incomplete` / `Error` / `Failure` kept apart exactly
  as `parse.rs` keeps them apart,
* Rust `&str` / `String` values that originate from byte slices are kept as
  their UTF-8 byte lists,
* `u16` arithmetic that may wrap is written with an explicit `% 65536`.

The crate's `dlt` module (wire-type structs and constants) is declared in
`lib.rs` but its source file is not part of the snapshot; every definition
taken from it is marked `Modelled from the spec:` and follows the
specification's description of the wire format.
-/

namespace DltCore

/-- Byte strings are lists of naturals; real inputs have entries `< 256`. -/
abbrev Bytes := List Nat

/-- All entries of a byte string are actual byte values. -/
def bytesOk (xs : Bytes) : Prop := ∀ b ∈ xs, b < 256

/-- Mirror of `nom::Needed` (how much more input a streaming parser wants). -/
inductive Needed where
  | unknown : Needed
  | size (n : Nat) : Needed
deriving DecidableEq, Repr

/-- Mirror of `DltParseError` from `parse.rs` (lines 64-74): the three error
classes the crate exposes. -/
inductive DltParseError where
  | unrecoverable (msg : String) : DltParseError
  | parsingHickup (msg : String) : DltParseError
  | incompleteParse (needed : Option Nat) : DltParseError
deriving DecidableEq, Repr

/-- Mirror of `nom::Err<DltParseError>`: streaming incompleteness, a
recoverable error, or a fatal failure. -/
inductive NomErr where
  | incomplete (n : Needed) : NomErr
  | error (e : DltParseError) : NomErr
  | failure (e : DltParseError) : NomErr
deriving DecidableEq, Repr

/-- Mirror of `IResult<&[u8], T, DltParseError>`: either the remaining input
together with the parsed value, or a nom error. -/
inductive IRes (α : Type) where
  | ok (rest : Bytes) (val : α) : IRes α
  | err (e : NomErr) : IRes α
deriving DecidableEq, Repr

/-- Sequencing of parse results, the `?` operator of the Rust code. -/
def IRes.bindR {α β : Type} (r : IRes α) (f : Bytes → α → IRes β) : IRes β :=
  match r with
  | .ok rest v => f rest v
  | .err e => .err e

/-- The result is a nom `Error` or `Failure` (not ok, not incomplete). -/
def IRes.isFail {α : Type} : IRes α → Bool
  | .err (.error _) => true
  | .err (.failure _) => true
  | _ => false

/-- The result is a nom `Incomplete`. -/
def IRes.isIncomplete {α : Type} : IRes α → Bool
  | .err (.incomplete _) => true
  | _ => false

/-- The result is a success. -/
def IRes.isOk {α : Type} : IRes α → Bool
  | .ok _ _ => true
  | _ => false

/-- Mirror of `impl ParseError<&[u8]> for DltParseError::from_error_kind`
(`parse.rs` lines 49-56): every plain nom error becomes a `ParsingHickup`. -/
def fromErrorKind (kind : String) (len : Nat) : DltParseError :=
  .parsingHickup ("Nom error: " ++ kind ++ " (" ++ toString len ++ " bytes left)")

/-- The `Display` text of `DltParseError` (the `#[error(...)]` attributes
on the enum, `parse.rs` lines 64-74). -/
def DltParseError.display : DltParseError → String
  | .unrecoverable msg => "parsing stopped, cannot continue: " ++ msg
  | .parsingHickup msg => "parsing error, try to continue: " ++ msg
  | .incompleteParse _ => "parsing could not complete"

/-- Mirror of `nom_to_dlt_parse_error` (`parse.rs` lines 220-231): collapse a
nom error into the crate's error type; `Failure` becomes `Unrecoverable`. -/
def nomToDltParseError (ne : NomErr) (desc : String) : DltParseError :=
  match ne with
  | .incomplete (.size needed) => .incompleteParse (some needed)
  | .incomplete .unknown => .incompleteParse none
  | .error e => .parsingHickup (desc ++ ": " ++ e.display)
  | .failure e => .unrecoverable (desc ++ ": " ++ e.display)

/-- Mirror of `add_context` (`parse.rs` lines 208-218). -/
def addContext (ne : NomErr) (desc : String) : NomErr :=
  match ne with
  | .incomplete n => .incomplete n
  | .error e => .error (.parsingHickup (desc ++ ": " ++ e.display))
  | .failure e => .error (.unrecoverable (desc ++ ": " ++ e.display))

/-! ## Streaming primitives

Models of the nom 6 streaming combinators used by `parse.rs`. -/

/-- Read `n` bytes and fold them with `step`; models the nom streaming
fixed-size number parsers (`be_u8`, `be_u16`, `le_u32`, ...). On short input
they return `Incomplete` with the number of missing bytes. -/
def parseNum (n : Nat) (fold : Bytes → Nat) (xs : Bytes) : IRes Nat :=
  if xs.length < n then .err (.incomplete (.size (n - xs.length)))
  else .ok (xs.drop n) (fold (xs.take n))

/-- Big-endian value of a byte list (most significant byte first). -/
def beVal : Bytes → Nat
  | [] => 0
  | b :: rest => b * 256 ^ rest.length + beVal rest

/-- Little-endian value of a byte list (least significant byte first). -/
def leVal : Bytes → Nat
  | [] => 0
  | b :: rest => b + 256 * leVal rest

/-- Mirror of nom's streaming `be_u8`. -/
def beU8 (xs : Bytes) : IRes Nat := parseNum 1 beVal xs

/-- Mirror of nom's streaming `be_u16`. -/
def beU16 (xs : Bytes) : IRes Nat := parseNum 2 beVal xs

/-- Mirror of nom's streaming `le_u32`. -/
def leU32 (xs : Bytes) : IRes Nat := parseNum 4 leVal xs

/-- Mirror of nom's streaming `take(count)`: exactly `count` bytes. -/
def takeP (count : Nat) (xs : Bytes) : IRes Bytes :=
  if xs.length < count then .err (.incomplete (.size (count - xs.length)))
  else .ok (xs.drop count) (xs.take count)

/-- Mirror of nom's streaming `tag(t)`: the input must begin with `t`;
a short matching input is `Incomplete`, a mismatch is an `Error`. -/
def tagP (t : Bytes) (xs : Bytes) : IRes Bytes :=
  if t.isPrefixOf xs then .ok (xs.drop t.length) t
  else if xs.isPrefixOf t then .err (.incomplete (.size (t.length - xs.length)))
  else .err (.error (fromErrorKind "Tag" xs.length))

/-- Index of the first entry not satisfying `pred`, if any. -/
def firstStop (pred : Nat → Bool) : Bytes → Option Nat
  | [] => none
  | b :: rest => if pred b then (firstStop pred rest).map (· + 1) else some 0

/-- Mirror of nom's streaming `take_while_m_n(0, n, pred)`: consume matching
bytes, at most `n`; stop early at the first non-matching byte; if the input
ends before `n` bytes with every byte matching, ask for more input. -/
def takeWhileMN0 (n : Nat) (pred : Nat → Bool) (xs : Bytes) : IRes Bytes :=
  match firstStop pred xs with
  | some i => .ok (xs.drop (min i n)) (xs.take (min i n))
  | none =>
    if n ≤ xs.length then .ok (xs.drop n) (xs.take n)
    else .err (.incomplete (.size 1))

/-! ## UTF-8 validation

`dlt_zero_terminated_string` runs `str::from_utf8` and truncates at
`valid_up_to` on failure.  `utf8ValidUpTo` models the standard library's
validator: the length of the longest prefix that is a sequence of complete,
valid UTF-8 encodings (identical to `Utf8Error::valid_up_to`). -/

/-- Is `b` a UTF-8 continuation byte (`0x80..=0xBF`)? -/
def utf8Cont (b : Nat) : Bool := 0x80 ≤ b && b ≤ 0xBF

/-- Length of the longest valid-UTF-8 prefix of a byte list. -/
def utf8ValidUpTo : Bytes → Nat
  | [] => 0
  | b :: rest =>
    if b < 0x80 then 1 + utf8ValidUpTo rest
    else if 0xC2 ≤ b && b ≤ 0xDF then
      match rest with
      | c1 :: r1 => if utf8Cont c1 then 2 + utf8ValidUpTo r1 else 0
      | [] => 0
    else if b == 0xE0 then
      match rest with
      | c1 :: c2 :: r2 =>
        if (0xA0 ≤ c1 && c1 ≤ 0xBF) && utf8Cont c2 then 3 + utf8ValidUpTo r2 else 0
      | _ => 0
    else if (0xE1 ≤ b && b ≤ 0xEC) || b == 0xEE || b == 0xEF then
      match rest with
      | c1 :: c2 :: r2 =>
        if utf8Cont c1 && utf8Cont c2 then 3 + utf8ValidUpTo r2 else 0
      | _ => 0
    else if b == 0xED then
      match rest with
      | c1 :: c2 :: r2 =>
        if (0x80 ≤ c1 && c1 ≤ 0x9F) && utf8Cont c2 then 3 + utf8ValidUpTo r2 else 0
      | _ => 0
    else if b == 0xF0 then
      match rest with
      | c1 :: c2 :: c3 :: r3 =>
        if (0x90 ≤ c1 && c1 ≤ 0xBF) && utf8Cont c2 && utf8Cont c3 then
          4 + utf8ValidUpTo r3
        else 0
      | _ => 0
    else if 0xF1 ≤ b && b ≤ 0xF3 then
      match rest with
      | c1 :: c2 :: c3 :: r3 =>
        if utf8Cont c1 && utf8Cont c2 && utf8Cont c3 then 4 + utf8ValidUpTo r3 else 0
      | _ => 0
    else if b == 0xF4 then
      match rest with
      | c1 :: c2 :: c3 :: r3 =>
        if (0x80 ≤ c1 && c1 ≤ 0x8F) && utf8Cont c2 && utf8Cont c3 then
          4 + utf8ValidUpTo r3
        else 0
      | _ => 0
    else 0

/-- Truncate a byte list to its longest valid-UTF-8 prefix: the value
`str::from_utf8` keeps (all of it when valid, `valid_up_to` bytes when not). -/
def utf8Valid (xs : Bytes) : Bytes := xs.take (utf8ValidUpTo xs)

/-- Mirror of `is_not_null` (`parse.rs` lines 319-322). -/
def isNotNull (b : Nat) : Bool := b != 0

/-- Mirror of `dlt_zero_terminated_string` (`parse.rs` lines 328-340): take
up to `size` non-null bytes, interpret them as UTF-8 (truncating an invalid
tail), then pad-read so that exactly `size` bytes are consumed. -/
def dlt_zero_terminated_string (s : Bytes) (size : Nat) : IRes Bytes :=
  (takeWhileMN0 size isNotNull s).bindR fun restWithNull content =>
    (takeP (size - content.length) restWithNull).bindR fun rest _ =>
      .ok rest (utf8Valid content)

/-! ## Statistics (`statistics.rs`) -/

/-- Mirror of `LevelDistribution` (`statistics.rs` lines 97-107). -/
structure LevelDistribution where
  non_log : Nat
  log_fatal : Nat
  log_error : Nat
  log_warning : Nat
  log_info : Nat
  log_debug : Nat
  log_verbose : Nat
  log_invalid : Nat
deriving DecidableEq, Repr

/-- Mirror of `LevelDistribution::merge` (`statistics.rs` lines 148-157);
the Rust method updates `self` in place, modelled here as returning the
updated receiver. -/
def LevelDistribution.merge (self outside : LevelDistribution) : LevelDistribution :=
  { non_log := self.non_log + outside.non_log
    log_fatal := self.log_fatal + outside.log_fatal
    log_error := self.log_error + outside.log_error
    log_warning := self.log_warning + outside.log_warning
    log_info := self.log_info + outside.log_info
    log_debug := self.log_debug + outside.log_debug
    log_verbose := self.log_verbose + outside.log_verbose
    log_invalid := self.log_invalid + outside.log_invalid }

/-- Mirror of `StatisticInfo` (`statistics.rs` lines 169-174); the id maps
are vectors of pairs exactly as in the source. -/
structure StatisticInfo where
  app_ids : List (String × LevelDistribution)
  context_ids : List (String × LevelDistribution)
  ecu_ids : List (String × LevelDistribution)
  contained_non_verbose : Bool
deriving DecidableEq, Repr

/-- Merge `income` into the first entry of `owner` carrying the same id
(the `find` + `merge` arm of `StatisticInfo::merge_levels`). -/
def mergeFirstLevel (id : String) (income : LevelDistribution) :
    List (String × LevelDistribution) → List (String × LevelDistribution)
  | [] => []
  | (oid, od) :: rest =>
    if oid = id then (oid, od.merge income) :: rest
    else (oid, od) :: mergeFirstLevel id income rest

/-- Mirror of `StatisticInfo::merge_levels` (`statistics.rs` lines 193-205):
for each incoming pair, merge into the existing entry with the same id or
append it at the end. -/
def StatisticInfo.merge_levels (owner incomes : List (String × LevelDistribution)) :
    List (String × LevelDistribution) :=
  incomes.foldl
    (fun own p =>
      if own.any (fun q => q.1 = p.1) then mergeFirstLevel p.1 p.2 own
      else own ++ [p])
    owner

/-- Mirror of `StatisticInfo::merge` (`statistics.rs` lines 186-191). -/
def StatisticInfo.merge (self stat : StatisticInfo) : StatisticInfo :=
  { app_ids := StatisticInfo.merge_levels self.app_ids stat.app_ids
    context_ids := StatisticInfo.merge_levels self.context_ids stat.context_ids
    ecu_ids := StatisticInfo.merge_levels self.ecu_ids stat.ecu_ids
    contained_non_verbose := self.contained_non_verbose || stat.contained_non_verbose }

/-! ## Wire types

The crate's `dlt` module is not part of the source snapshot (only its users
are), so the following types and constants are modelled from the spec:
§3 "Data model", §6 "External interfaces" and the worked example in the
doc comment of `dlt_message` in `parse.rs`. -/

/-- Modelled from the spec: `"DLT\x01"`, the 4-byte storage sync pattern
(also defined in `parse.rs` line 43). -/
def DLT_PATTERN : Bytes := [0x44, 0x4C, 0x54, 0x01]

/-- Modelled from the spec: the storage header is 16 bytes long (§6). -/
def STORAGE_HEADER_LENGTH : Nat := 16

/-- Modelled from the spec: header-type flag bit `UEH` (use extended
header), bit 0 per the worked example (`0x35 = 0b0011_0101`, UEH set). -/
def WITH_EXTENDED_HEADER_FLAG : Nat := 1

/-- Modelled from the spec: header-type flag bit `MSBF` (payload big
endian), bit 1. -/
def BIG_ENDIAN_FLAG : Nat := 2

/-- Modelled from the spec: header-type flag bit `WEID` (with ECU id),
bit 2. -/
def WITH_ECU_ID_FLAG : Nat := 4

/-- Modelled from the spec: header-type flag bit `WSID` (with session id),
bit 3. -/
def WITH_SESSION_ID_FLAG : Nat := 8

/-- Modelled from the spec: header-type flag bit `WTMS` (with timestamp),
bit 4. -/
def WITH_TIMESTAMP_FLAG : Nat := 16

/-- Modelled from the spec: `MSIN` verbose flag, bit 0 (§3). -/
def VERBOSE_FLAG : Nat := 1

/-- Modelled from the spec: the standard header is at least 4 bytes, plus 4
for each of ECU id / session id / timestamp when flagged, plus 10 for the
extended header when flagged (§6); `calculate_all_headers_length` of the
missing `dlt` module. -/
def calculate_all_headers_length (headerType : Nat) : Nat :=
  4 + (if headerType &&& WITH_ECU_ID_FLAG != 0 then 4 else 0)
    + (if headerType &&& WITH_SESSION_ID_FLAG != 0 then 4 else 0)
    + (if headerType &&& WITH_TIMESTAMP_FLAG != 0 then 4 else 0)
    + (if headerType &&& WITH_EXTENDED_HEADER_FLAG != 0 then 10 else 0)

/-- Payload endianness selected by the `MSBF` flag. -/
inductive Endianness where
  | big : Endianness
  | little : Endianness
deriving DecidableEq, Repr

/-- Modelled from the spec: the six log levels `1 = Fatal .. 6 = Verbose`
plus `Invalid(n)` (§3). -/
inductive LogLevel where
  | fatal | error | warn | info | debug | verbose
  | invalid (n : Nat) : LogLevel
deriving DecidableEq, Repr

/-- Numeric value of a log level (`1 = Fatal .. 6 = Verbose`). -/
def LogLevel.num : LogLevel → Nat
  | .fatal => 1
  | .error => 2
  | .warn => 3
  | .info => 4
  | .debug => 5
  | .verbose => 6
  | .invalid n => n

/-- Modelled from the spec: log level from the 4-bit `MTIN` field. -/
def logLevelOfMtin (n : Nat) : LogLevel :=
  match n with
  | 1 => .fatal
  | 2 => .error
  | 3 => .warn
  | 4 => .info
  | 5 => .debug
  | 6 => .verbose
  | _ => .invalid n

/-- Modelled from the spec: control-message type from `MTIN`
(`1 = Request`, `2 = Response`, the worked example uses `0x1 = Request`). -/
inductive ControlType where
  | request | response
  | unknown (n : Nat) : ControlType
deriving DecidableEq, Repr

/-- Modelled from the spec: `ControlType::from_value` of the missing `dlt`
module, used on the first payload byte of a control message. -/
def ControlType.from_value (n : Nat) : ControlType :=
  match n with
  | 1 => .request
  | 2 => .response
  | _ => .unknown n

/-- Modelled from the spec: `MessageType` is `Log`, `ApplicationTrace`,
`NetworkTrace`, `Control` or `Unknown(n)` (§3); the trace payload type
fields are kept as their raw `MTIN` values. -/
inductive MessageType where
  | log (level : LogLevel) : MessageType
  | applicationTrace (mtin : Nat) : MessageType
  | networkTrace (mtin : Nat) : MessageType
  | control (ty : ControlType) : MessageType
  | unknown (n : Nat) : MessageType
deriving DecidableEq, Repr

/-- Modelled from the spec: decode the `MSIN` byte into a `MessageType`
(3-bit message type in bits 1-3, 4-bit type info in bits 4-7, §3); all
byte values decode (there is an `Unknown` catch-all). -/
def MessageType.tryFrom (msin : Nat) : MessageType :=
  let mstp := (msin >>> 1) &&& 7
  let mtin := (msin >>> 4) &&& 15
  match mstp with
  | 0 => .log (logLevelOfMtin mtin)
  | 1 => .applicationTrace mtin
  | 2 => .networkTrace mtin
  | 3 => .control (ControlType.from_value mtin)
  | _ => .unknown msin

/-- Modelled from the spec: 32-bit seconds and microseconds of a storage
header (§3). -/
structure DltTimeStamp where
  seconds : Nat
  microseconds : Nat
deriving DecidableEq, Repr

/-- Modelled from the spec: the storage header value (§3). -/
structure StorageHeader where
  timestamp : DltTimeStamp
  ecu_id : Bytes
deriving DecidableEq, Repr

/-- Modelled from the spec: the standard header value (§3); as in the
source, the parsed `payload_length` is stored instead of `overall_length`. -/
structure StandardHeader where
  version : Nat
  endianness : Endianness
  has_extended_header : Bool
  message_counter : Nat
  payload_length : Nat
  ecu_id : Option Bytes
  session_id : Option Nat
  timestamp : Option Nat
deriving DecidableEq, Repr

/-- Modelled from the spec: `StandardHeader::new`, with the argument order
used by the call in `dlt_standard_header` (`parse.rs` lines 259-272). -/
def StandardHeader.new (version : Nat) (endianness : Endianness)
    (message_counter : Nat) (has_extended_header : Bool) (payload_length : Nat)
    (ecu_id : Option Bytes) (session_id : Option Nat) (timestamp : Option Nat) :
    StandardHeader :=
  { version, endianness, has_extended_header, message_counter, payload_length,
    ecu_id, session_id, timestamp }

/-- Modelled from the spec: reassemble the header-type byte from the stored
flags and version (flag bits as above, version in bits 5-7). -/
def StandardHeader.header_type_byte (h : StandardHeader) : Nat :=
  (if h.has_extended_header then WITH_EXTENDED_HEADER_FLAG else 0)
  + (if h.endianness = .big then BIG_ENDIAN_FLAG else 0)
  + (if h.ecu_id.isSome then WITH_ECU_ID_FLAG else 0)
  + (if h.session_id.isSome then WITH_SESSION_ID_FLAG else 0)
  + (if h.timestamp.isSome then WITH_TIMESTAMP_FLAG else 0)
  + h.version * 32

/-- Modelled from the spec: `overall_length = headers_length +
payload_length` (§3 invariant), a `u16` sum (hence the explicit wrap). -/
def StandardHeader.overall_length (h : StandardHeader) : Nat :=
  (calculate_all_headers_length h.header_type_byte + h.payload_length) % 65536

/-- Modelled from the spec: the extended header value (§3). -/
structure ExtendedHeader where
  verbose : Bool
  argument_count : Nat
  message_type : MessageType
  application_id : Bytes
  context_id : Bytes
deriving DecidableEq, Repr

/-- Modelled from the spec: `ExtendedHeader::skip_with_level` — the message
is a log whose level is numerically greater (less severe) than the minimum
(§4.3 rule 1). -/
def ExtendedHeader.skip_with_level (h : ExtendedHeader) (level : LogLevel) : Bool :=
  match h.message_type with
  | .log l => level.num < l.num
  | _ => false

/-- Modelled from the spec: integer argument widths (§3). -/
inductive TypeLength where
  | bit8 | bit16 | bit32 | bit64 | bit128
deriving DecidableEq, Repr

/-- Number of bytes of an integer width. -/
def TypeLength.bytes : TypeLength → Nat
  | .bit8 => 1
  | .bit16 => 2
  | .bit32 => 4
  | .bit64 => 8
  | .bit128 => 16

/-- Modelled from the spec: float / fixed-point widths (§3). -/
inductive FloatWidth where
  | width32 | width64
deriving DecidableEq, Repr

/-- Modelled from the spec: `float_width_to_type_length` of the missing
`dlt` module (the value of a fixed-point argument has the same width as the
declared float width). -/
def float_width_to_type_length : FloatWidth → TypeLength
  | .width32 => .bit32
  | .width64 => .bit64

/-- Modelled from the spec: string coding of a string argument (§6: coding
field value 0 is ASCII, 1 is UTF-8). -/
inductive StringCoding where
  | ascii | utf8
deriving DecidableEq, Repr

/-- Modelled from the spec: the kind of a verbose argument (§3). -/
inductive TypeInfoKind where
  | bool : TypeInfoKind
  | signed (width : TypeLength) : TypeInfoKind
  | signedFixedPoint (width : FloatWidth) : TypeInfoKind
  | unsigned (width : TypeLength) : TypeInfoKind
  | unsignedFixedPoint (width : FloatWidth) : TypeInfoKind
  | float (width : FloatWidth) : TypeInfoKind
  | stringType : TypeInfoKind
  | raw : TypeInfoKind
deriving DecidableEq, Repr

/-- Modelled from the spec: the decoded `TypeInfo` word (§3, §6). -/
structure TypeInfo where
  kind : TypeInfoKind
  coding : StringCoding
  has_variable_info : Bool
  has_trace_info : Bool
deriving DecidableEq, Repr

/-- Integer width from the 4-bit type-length field (§6); out-of-range
values are undefined. -/
def typeLengthOfBits (n : Nat) : Option TypeLength :=
  match n with
  | 1 => some .bit8
  | 2 => some .bit16
  | 3 => some .bit32
  | 4 => some .bit64
  | 5 => some .bit128
  | _ => none

/-- Float width from the 4-bit type-length field (§6); only 32 and 64 bit
floats exist. -/
def floatWidthOfBits (n : Nat) : Option FloatWidth :=
  match n with
  | 3 => some .width32
  | 4 => some .width64
  | _ => none

/-- Bit `i` of `w` is set. -/
def bitSet (w i : Nat) : Bool := (w >>> i) &&& 1 != 0

/-- Modelled from the spec: `TypeInfo::try_from(u32)` — decode the 32-bit
type-info word (§6 bit layout: bits 0-3 length, 4 bool, 5 signed,
6 unsigned, 7 float, 9 string, 10 raw, 11 variable-info, 12 fixed-point,
13 trace-info, bits 15-17 string coding); a kind/width combination that is
undefined fails (§4.1). -/
def TypeInfo.tryFrom (info : Nat) : Option TypeInfo := do
  let lenBits := info &&& 0xF
  let kind ←
    if bitSet info 4 then some TypeInfoKind.bool
    else if bitSet info 5 then
      if bitSet info 12 then (floatWidthOfBits lenBits).map .signedFixedPoint
      else (typeLengthOfBits lenBits).map .signed
    else if bitSet info 6 then
      if bitSet info 12 then (floatWidthOfBits lenBits).map .unsignedFixedPoint
      else (typeLengthOfBits lenBits).map .unsigned
    else if bitSet info 7 then (floatWidthOfBits lenBits).map .float
    else if bitSet info 9 then some TypeInfoKind.stringType
    else if bitSet info 10 then some TypeInfoKind.raw
    else none
  let coding ←
    match (info >>> 15) &&& 7 with
    | 0 => some StringCoding.ascii
    | 1 => some StringCoding.utf8
    | _ => none
  some { kind, coding,
         has_variable_info := bitSet info 11,
         has_trace_info := bitSet info 13 }

/-- Modelled from the spec: fixed-point offset, `i32` or `i64` (§4.1). -/
inductive FixedPointValue where
  | i32 (v : Int) : FixedPointValue
  | i64 (v : Int) : FixedPointValue
deriving DecidableEq, Repr

/-- Modelled from the spec: fixed-point metadata — an `f32` quantization
(kept as its raw 32 bits) and an integer offset (§4.1). -/
structure FixedPoint where
  quantization : Nat
  offset : FixedPointValue
deriving DecidableEq, Repr

/-- Modelled from the spec: a scalar or byte/string argument value (§3);
floats are kept as their raw bit patterns. -/
inductive Value where
  | boolV (v : Nat) : Value
  | u8 (v : Nat) | u16 (v : Nat) | u32 (v : Nat) | u64 (v : Nat) | u128 (v : Nat)
  | i8 (v : Int) | i16 (v : Int) | i32 (v : Int) | i64 (v : Int) | i128 (v : Int)
  | f32 (bits : Nat) | f64 (bits : Nat)
  | stringVal (s : Bytes) : Value
  | raw (bytes : Bytes) : Value
deriving DecidableEq, Repr

/-- Modelled from the spec: a verbose argument (§3). -/
structure Argument where
  type_info : TypeInfo
  name : Option Bytes
  unit : Option Bytes
  fixed_point : Option FixedPoint
  value : Value
deriving DecidableEq, Repr

/-- Modelled from the spec: the payload alternatives (§3). -/
inductive PayloadContent where
  | verbose (args : List Argument) : PayloadContent
  | nonVerbose (message_id : Nat) (bytes : Bytes) : PayloadContent
  | controlMsg (ty : ControlType) (bytes : Bytes) : PayloadContent
deriving DecidableEq, Repr

/-- Modelled from the spec: a decoded message (§3). -/
structure Message where
  storage_header : Option StorageHeader
  header : StandardHeader
  extended_header : Option ExtendedHeader
  payload : PayloadContent
deriving DecidableEq, Repr

/-- Mirror of `ParsedMessage` (`parse.rs` lines 758-766). -/
inductive ParsedMessage where
  | item (msg : Message) : ParsedMessage
  | filteredOut (payloadLength : Nat) : ParsedMessage
  | invalid : ParsedMessage
deriving DecidableEq, Repr

/-! ## The byte-order abstraction (`NomByteOrder` in `parse.rs`) -/

/-- Numeric value of a byte list in the given byte order. -/
def endVal : Endianness → Bytes → Nat
  | .big, xs => beVal xs
  | .little, xs => leVal xs

/-- Mirror of `T::parse_u16` for `T` big or little endian. -/
def parseU16 (T : Endianness) (xs : Bytes) : IRes Nat := parseNum 2 (endVal T) xs

/-- Mirror of `T::parse_u32`. -/
def parseU32 (T : Endianness) (xs : Bytes) : IRes Nat := parseNum 4 (endVal T) xs

/-- Mirror of `T::parse_u64`. -/
def parseU64 (T : Endianness) (xs : Bytes) : IRes Nat := parseNum 8 (endVal T) xs

/-- Mirror of `T::parse_u128`. -/
def parseU128 (T : Endianness) (xs : Bytes) : IRes Nat := parseNum 16 (endVal T) xs

/-- Two's-complement reading of an unsigned `bits`-bit value. -/
def toSigned (bits : Nat) (v : Nat) : Int :=
  if v < 2 ^ (bits - 1) then (v : Int) else (v : Int) - 2 ^ bits

/-- `u16` subtraction with the wrap-around of a release build (debug builds
panic on underflow instead). -/
def u16sub (a b : Nat) : Nat := (a + 65536 - b) % 65536

/-! ## Argument decoding (`parse.rs` lines 342-679) -/

/-- Mirror of `dlt_uint` (`parse.rs` lines 440-450); 8-bit reads are always
`be_u8`. -/
def dlt_uint (T : Endianness) (width : TypeLength) (xs : Bytes) : IRes Value :=
  match width with
  | .bit8 => (beU8 xs).bindR fun r v => .ok r (.u8 v)
  | .bit16 => (parseU16 T xs).bindR fun r v => .ok r (.u16 v)
  | .bit32 => (parseU32 T xs).bindR fun r v => .ok r (.u32 v)
  | .bit64 => (parseU64 T xs).bindR fun r v => .ok r (.u64 v)
  | .bit128 => (parseU128 T xs).bindR fun r v => .ok r (.u128 v)

/-- Mirror of `dlt_sint` (`parse.rs` lines 453-463). -/
def dlt_sint (T : Endianness) (width : TypeLength) (xs : Bytes) : IRes Value :=
  match width with
  | .bit8 => (beU8 xs).bindR fun r v => .ok r (.i8 (toSigned 8 v))
  | .bit16 => (parseU16 T xs).bindR fun r v => .ok r (.i16 (toSigned 16 v))
  | .bit32 => (parseU32 T xs).bindR fun r v => .ok r (.i32 (toSigned 32 v))
  | .bit64 => (parseU64 T xs).bindR fun r v => .ok r (.i64 (toSigned 64 v))
  | .bit128 => (parseU128 T xs).bindR fun r v => .ok r (.i128 (toSigned 128 v))

/-- Mirror of `dlt_fint` (`parse.rs` lines 466-473); float values are kept
as raw bit patterns. -/
def dlt_fint (T : Endianness) (width : FloatWidth) (xs : Bytes) : IRes Value :=
  match width with
  | .width32 => (parseU32 T xs).bindR fun r v => .ok r (.f32 v)
  | .width64 => (parseU64 T xs).bindR fun r v => .ok r (.f64 v)

/-- Mirror of `dlt_type_info` (`parse.rs` lines 475-493): read a 32-bit
word and decode it, failing with a `ParsingHickup` when undefined. -/
def dlt_type_info (T : Endianness) (xs : Bytes) : IRes TypeInfo :=
  (parseU32 T xs).bindR fun i info =>
    match TypeInfo.tryFrom info with
    | some ti => .ok i ti
    | none => .err (.error (.parsingHickup "dlt_type_info failed to parse"))

/-- Mirror of `dlt_variable_name` (`parse.rs` lines 342-346). -/
def dlt_variable_name (T : Endianness) (xs : Bytes) : IRes Bytes :=
  (parseU16 T xs).bindR fun i size =>
    (dlt_zero_terminated_string i size).bindR fun i2 name => .ok i2 name

/-- Mirror of `dlt_variable_name_and_unit` (`parse.rs` lines 396-412). -/
def dlt_variable_name_and_unit (T : Endianness) (ti : TypeInfo) (xs : Bytes) :
    IRes (Option Bytes × Option Bytes) :=
  if ti.has_variable_info then
    (parseU16 T xs).bindR fun i2a nameSize =>
      (parseU16 T i2a).bindR fun i2 unitSize =>
        (dlt_zero_terminated_string i2 nameSize).bindR fun i3 name =>
          (dlt_zero_terminated_string i3 unitSize).bindR fun rest unit =>
            .ok rest (some name, some unit)
  else .ok xs (none, none)

/-- Mirror of `dlt_fixed_point` (`parse.rs` lines 495-522). -/
def dlt_fixed_point (T : Endianness) (xs : Bytes) (width : FloatWidth) :
    IRes FixedPoint :=
  (parseU32 T xs).bindR fun i quantization =>
    if width = .width32 then
      (parseU32 T i).bindR fun rest offset =>
        .ok rest { quantization, offset := .i32 (toSigned 32 offset) }
    else if width = .width64 then
      (parseU64 T i).bindR fun rest offset =>
        .ok rest { quantization, offset := .i64 (toSigned 64 offset) }
    else .err (.error (.parsingHickup "error in dlt_fixed_point"))

/-- Mirror of `dlt_argument` (`parse.rs` lines 524-679): a type-info word
followed by the kind-specific optional metadata and value. -/
def dlt_argument (T : Endianness) (xs : Bytes) : IRes Argument :=
  (dlt_type_info T xs).bindR fun i type_info =>
    match type_info.kind with
    | .signed width =>
      (dlt_variable_name_and_unit T type_info i).bindR fun beforeVal nameUnit =>
        (dlt_sint T width beforeVal).bindR fun rest value =>
          .ok rest { name := nameUnit.1, unit := nameUnit.2, value,
                     fixed_point := none, type_info }
    | .signedFixedPoint width =>
      (dlt_variable_name_and_unit T type_info i).bindR fun beforeVal nameUnit =>
        (dlt_fixed_point T beforeVal width).bindR fun afterFp fp =>
          (dlt_sint T (float_width_to_type_length width) afterFp).bindR fun rest value =>
            .ok rest { name := nameUnit.1, unit := nameUnit.2, value,
                       fixed_point := some fp, type_info }
    | .unsigned width =>
      (dlt_variable_name_and_unit T type_info i).bindR fun beforeVal nameUnit =>
        (dlt_uint T width beforeVal).bindR fun rest value =>
          .ok rest { name := nameUnit.1, unit := nameUnit.2, value,
                     fixed_point := none, type_info }
    | .unsignedFixedPoint width =>
      (dlt_variable_name_and_unit T type_info i).bindR fun beforeVal nameUnit =>
        (dlt_fixed_point T beforeVal width).bindR fun afterFp fp =>
          (dlt_uint T (float_width_to_type_length width) afterFp).bindR fun rest value =>
            .ok rest { type_info, name := nameUnit.1, unit := nameUnit.2,
                       fixed_point := some fp, value }
    | .float width =>
      (dlt_variable_name_and_unit T type_info i).bindR fun beforeVal nameUnit =>
        (dlt_fint T width beforeVal).bindR fun rest value =>
          .ok rest { name := nameUnit.1, unit := nameUnit.2, value,
                     fixed_point := none, type_info }
    | .raw =>
      (parseU16 T i).bindR fun i2 rawByteCnt =>
        (if type_info.has_variable_info then
           (dlt_variable_name T i2).bindR fun i3 n => .ok i3 (some n)
         else .ok i2 none).bindR fun i3 name =>
          (takeP rawByteCnt i3).bindR fun rest s =>
            .ok rest { name, unit := none, value := .raw s,
                       fixed_point := none, type_info }
    | .bool =>
      (if type_info.has_variable_info then
         (dlt_variable_name T i).bindR fun i3 n => .ok i3 (some n)
       else .ok i none).bindR fun afterVarName name =>
        (beU8 afterVarName).bindR fun rest boolValue =>
          .ok rest { type_info, name, unit := none, fixed_point := none,
                     value := .boolV boolValue }
    | .stringType =>
      (parseU16 T i).bindR fun i2 size =>
        (if type_info.has_variable_info then
           (dlt_variable_name T i2).bindR fun i3 n => .ok i3 (some n)
         else .ok i2 none).bindR fun i3 name =>
          (dlt_zero_terminated_string i3 size).bindR fun rest value =>
            .ok rest { name, unit := none, fixed_point := none,
                       value := .stringVal value, type_info }

/-- Apply a parser a fixed number of times, collecting the results; mirror
of nom's `count` as used for verbose arguments. -/
def countP {α : Type} (p : Bytes → IRes α) : Nat → Bytes → IRes (List α)
  | 0, xs => .ok xs []
  | n + 1, xs =>
    (p xs).bindR fun r v =>
      (countP p n r).bindR fun rest vs => .ok rest (v :: vs)

/-- Mirror of `nom::number::complete::be_u8` (used once, in the control
branch of `dlt_payload`): an empty input is an `Error`, not `Incomplete`. -/
def completeBeU8 (xs : Bytes) : IRes Nat :=
  match xs with
  | [] => .err (.error (fromErrorKind "Eof" 0))
  | b :: r => .ok r b

/-- Mirror of `dlt_payload` (`parse.rs` lines 686-733).  The `u16`
subtractions of the source are written with `u16sub` (release-build
wrap-around); `dlt_payload_underflow` below tracks the debug-build panics. -/
def dlt_payload (T : Endianness) (input : Bytes) (verbose : Bool)
    (payload_length : Nat) (arg_cnt : Nat) (is_controll_msg : Bool) :
    IRes PayloadContent :=
  if verbose then
    match countP (dlt_argument T) arg_cnt input with
    | .ok rest arguments => .ok rest (.verbose arguments)
    | .err e => .err (addContext e "Problem parsing arguments")
  else if is_controll_msg then
    if payload_length < 1 then
      .err (.failure (.parsingHickup "error, payload too short"))
    else
      (completeBeU8 input).bindR fun i controlMsgId =>
        (takeP (u16sub payload_length 1) i).bindR fun rest payload =>
          .ok rest (.controlMsg (ControlType.from_value controlMsgId) payload)
  else
    if input.length < 4 then
      .err (.failure (.parsingHickup "error, payload too short"))
    else
      (parseU32 T input).bindR fun i messageId =>
        (takeP (u16sub payload_length 4) i).bindR fun rest payload =>
          .ok rest (.nonVerbose messageId payload)

/-- Debug-build instrumentation of `dlt_payload`: `true` exactly when the
control flow of the source evaluates `payload_length - 1` (control branch)
respectively `payload_length - 4` (non-verbose branch) on operands that
underflow, which panics under debug assertions.  The pair is
`(control-branch underflow, non-verbose-branch underflow)`. -/
def dlt_payload_underflow (input : Bytes) (verbose : Bool)
    (payload_length : Nat) (is_controll_msg : Bool) : Bool × Bool :=
  if verbose then (false, false)
  else if is_controll_msg then
    if payload_length < 1 then (false, false) else (payload_length < 1, false)
  else
    if input.length < 4 then (false, false) else (false, payload_length < 4)

/-! ## Storage header scanning (`parse.rs` lines 119-175, 994-1032) -/

/-- First index at which `DLT_PATTERN` occurs, the `memmem::find` of
`forward_to_next_storage_header`. -/
def findPattern : Bytes → Option Nat
  | [] => none
  | b :: rest =>
    if DLT_PATTERN.isPrefixOf (b :: rest) then some 0
    else (findPattern rest).map (· + 1)

/-- Mirror of `forward_to_next_storage_header` (`parse.rs` lines 130-139):
number of bytes to drop to reach the next storage pattern, with the
remaining slice. -/
def forward_to_next_storage_header (input : Bytes) : Option (Nat × Bytes) :=
  (findPattern input).map fun toDrop => (toDrop, input.drop toDrop)

/-- Mirror of `dlt_storage_header` (`parse.rs` lines 144-175): scan to the
pattern, then read timestamp and ECU id; when no pattern exists the source
returns success with an empty remainder and no header. -/
def dlt_storage_header (input : Bytes) : IRes (Option (StorageHeader × Nat)) :=
  if input.length < STORAGE_HEADER_LENGTH then .err (.incomplete .unknown)
  else
    match forward_to_next_storage_header input with
    | some (consumed, rest) =>
      (tagP [0x44, 0x4C, 0x54] rest).bindR fun r1 _ =>
        (tagP [0x01] r1).bindR fun r2 _ =>
          (leU32 r2).bindR fun r3 seconds =>
            (leU32 r3).bindR fun afterTime microseconds =>
              (dlt_zero_terminated_string afterTime 4).bindR fun afterString ecuId =>
                .ok afterString
                  (some ({ timestamp := { seconds, microseconds },
                           ecu_id := ecuId }, consumed))
    | none => .ok [] none

/-- Mirror of `skip_storage_header` (`parse.rs` lines 1009-1018). -/
def skip_storage_header (input : Bytes) : IRes Nat :=
  (tagP [0x44, 0x4C, 0x54] input).bindR fun i1 _ =>
    (tagP [0x01] i1).bindR fun i2 _ =>
      (takeP 12 i2).bindR fun i _ =>
        if input.length - i.length = STORAGE_HEADER_LENGTH then
          .ok i STORAGE_HEADER_LENGTH
        else .err (.error (.parsingHickup "did not match DLT pattern"))

/-- Mirror of `skip_till_after_next_storage_header` (`parse.rs` lines
994-1006): scan to the next pattern and move past the 16-byte storage
header, reporting the total number of bytes consumed. -/
def skip_till_after_next_storage_header (input : Bytes) :
    Except DltParseError (Bytes × Nat) :=
  match forward_to_next_storage_header input with
  | some (consumed, rest) =>
    match skip_storage_header rest with
    | .ok afterStorageHeader skippedBytes => .ok (afterStorageHeader, consumed + skippedBytes)
    | .err e => .error (nomToDltParseError e "")
  | none => .error (.parsingHickup "did not find another storage header")

/-! ## Header parsing (`parse.rs` lines 177-317) -/

/-- Mirror of `parse_ecu_id` (`parse.rs` lines 45-47). -/
def parse_ecu_id (input : Bytes) : IRes Bytes := dlt_zero_terminated_string input 4

/-- Mirror of `maybe_parse_ecu_id` (`parse.rs` lines 177-191). -/
def maybe_parse_ecu_id (a : Bool) (input : Bytes) : IRes (Option Bytes) :=
  if a then (parse_ecu_id input).bindR fun rest ecuId => .ok rest (some ecuId)
  else .ok input none

/-- Mirror of `maybe_parse_u32` (`parse.rs` lines 193-206). -/
def maybe_parse_u32 (a : Bool) (input : Bytes) : IRes (Option Nat) :=
  if a then (parseNum 4 beVal input).bindR fun rest v => .ok rest (some v)
  else .ok input none

/-- Mirror of `dlt_standard_header` (`parse.rs` lines 235-274): header-type
byte, counter, big-endian overall length, then the flagged optional fields;
a length smaller than the headers is a `ParsingHickup`. -/
def dlt_standard_header (input : Bytes) : IRes StandardHeader :=
  (beU8 input).bindR fun i0 headerTypeByte =>
    (beU8 i0).bindR fun i1 messageCounter =>
      (beU16 i1).bindR fun i2 overallLength =>
        (maybe_parse_ecu_id (headerTypeByte &&& WITH_ECU_ID_FLAG != 0) i2).bindR
          fun i3 ecuId =>
          (maybe_parse_u32 (headerTypeByte &&& WITH_SESSION_ID_FLAG != 0) i3).bindR
            fun i4 sessionId =>
            (maybe_parse_u32 (headerTypeByte &&& WITH_TIMESTAMP_FLAG != 0) i4).bindR
              fun i5 timestamp =>
              let hasExtendedHeader := headerTypeByte &&& WITH_EXTENDED_HEADER_FLAG != 0
              let allHeadersLength := calculate_all_headers_length headerTypeByte
              if overallLength < allHeadersLength then
                .err (.error (.parsingHickup "Header indecates wrong message length"))
              else
                .ok i5 (StandardHeader.new ((headerTypeByte >>> 5) &&& 7)
                  (if headerTypeByte &&& BIG_ENDIAN_FLAG != 0 then .big else .little)
                  messageCounter hasExtendedHeader (overallLength - allHeadersLength)
                  ecuId sessionId timestamp)

/-- Mirror of `dlt_extended_header` (`parse.rs` lines 276-317); in the
model the `MSIN` byte always decodes to a `MessageType` (there is an
`Unknown` catch-all), so the source's unreachable error arm is dropped. -/
def dlt_extended_header (input : Bytes) : IRes ExtendedHeader :=
  (beU8 input).bindR fun j0 messageInfo =>
    (beU8 j0).bindR fun j1 argumentCount =>
      (parse_ecu_id j1).bindR fun j2 appId =>
        (parse_ecu_id j2).bindR fun i contextId =>
          .ok i { verbose := messageInfo &&& VERBOSE_FLAG != 0,
                  argument_count := argumentCount,
                  message_type := MessageType.tryFrom messageInfo,
                  application_id := appId,
                  context_id := contextId }

/-! ## Filtering (`parse.rs` lines 921-971) -/

/-- Mirror of `ProcessedDltFilterConfig` as the decoder uses it
(`filtered_out`, spec §3): an optional minimum log level, optional id sets
(modelled as lists with membership), and the total id counts.  (The
`filtering.rs` of the snapshot carries per-id levels instead; `parse.rs`
reads the fields listed here.) -/
structure ProcessedDltFilterConfig where
  min_log_level : Option LogLevel
  app_ids : Option (List Bytes)
  ecu_ids : Option (List Bytes)
  context_ids : Option (List Bytes)
  app_id_count : Int
  context_id_count : Int
deriving DecidableEq, Repr

/-- Mirror of `filtered_out` (`parse.rs` lines 921-971): the drop decision,
rules evaluated in order with the first hit short-circuiting. -/
def filtered_out (extended_header : Option ExtendedHeader)
    (filter_config_opt : Option ProcessedDltFilterConfig)
    (ecu_id : Option Bytes) : Bool :=
  match filter_config_opt with
  | none => false
  | some filterConfig =>
    match extended_header with
    | some h =>
      if (match filterConfig.min_log_level with
          | some minFilterLevel => h.skip_with_level minFilterLevel
          | none => false) then true
      else if (match filterConfig.app_ids with
          | some onlyThese => !onlyThese.contains h.application_id
          | none => false) then true
      else if (match filterConfig.context_ids with
          | some onlyThese => !onlyThese.contains h.context_id
          | none => false) then true
      else if (match filterConfig.ecu_ids, ecu_id with
          | some onlyThese, some e => !onlyThese.contains e
          | _, _ => false) then true
      else false
    | none =>
      if (match filterConfig.app_ids with
          | some s => decide ((s.length : Int) < filterConfig.app_id_count)
          | none => false) then true
      else if (match filterConfig.context_ids with
          | some s => decide ((s.length : Int) < filterConfig.context_id_count)
          | none => false) then true
      else false

/-! ## The message decoder (`parse.rs` lines 809-992) -/

/-- Mirror of `validated_payload_length` (`parse.rs` lines 973-992). -/
def validated_payload_length (header : StandardHeader) (remainingBytes : Nat) :
    Except DltParseError Nat :=
  let messageLength := header.overall_length
  let headersLength := calculate_all_headers_length header.header_type_byte
  if messageLength < headersLength then
    .error (.parsingHickup "Parsed message-length is less then the length of all headers")
  else if remainingBytes < messageLength then
    .error (.incompleteParse (some (messageLength - remainingBytes)))
  else .ok (messageLength - headersLength)

/-- The `verbose` flag `dlt_message_intern` reads off the optional
extended header (`parse.rs` lines 856-860). -/
def ehVerbose : Option ExtendedHeader → Bool
  | some eh => eh.verbose
  | none => false

/-- The argument count `dlt_message_intern` reads off the optional
extended header. -/
def ehArgCount : Option ExtendedHeader → Nat
  | some eh => eh.argument_count
  | none => 0

/-- The control-message flag `dlt_message_intern` reads off the optional
extended header (`parse.rs` lines 862-866). -/
def ehIsControl : Option ExtendedHeader → Bool
  | some eh =>
    match eh.message_type with
    | .control _ => true
    | _ => false
  | none => false

/-- The optional extended-header step of `dlt_message_intern` (`parse.rs`
lines 845-854): parse one when the standard header flags it. -/
def dlt_ext_step (b : Bool) (input : Bytes) : IRes (Option ExtendedHeader) :=
  if b then
    match dlt_extended_header input with
    | .err e => .err e
    | .ok rest extHeader => .ok rest (some extHeader)
  else .ok input none

/-- The tail of `dlt_message_intern` from the payload-length validation on
(`parse.rs` lines 869-918); `remaining` is the byte count after the
storage header that the source passes to `validated_payload_length`. -/
def bodyPayload (afterStorageAndNormalHeader afterHeaders : Bytes)
    (extendedHeader : Option ExtendedHeader) (header : StandardHeader)
    (remaining : Nat) (sh : Option StorageHeader)
    (filterConfigOpt : Option ProcessedDltFilterConfig) : IRes ParsedMessage :=
  match validated_payload_length header remaining with
  | .error (.incompleteParse needed) =>
    .err (.incomplete (match needed with
      | some n => .size n
      | none => .unknown))
  | .error _ => .ok afterStorageAndNormalHeader .invalid
  | .ok payloadLength =>
    if filtered_out extendedHeader filterConfigOpt header.ecu_id then
      match takeP payloadLength afterHeaders with
      | .err e => .err e
      | .ok afterMessage _ => .ok afterMessage (.filteredOut payloadLength)
    else
      match dlt_payload header.endianness afterHeaders
          (ehVerbose extendedHeader) payloadLength (ehArgCount extendedHeader)
          (ehIsControl extendedHeader) with
      | .err e => .err e
      | .ok i payload =>
        .ok i (.item { storage_header := sh, header,
                       extended_header := extendedHeader, payload })

/-- The part of `dlt_message_intern` after the standard header. -/
def bodyTail (afterStorageAndNormalHeader : Bytes) (header : StandardHeader)
    (remaining : Nat) (sh : Option StorageHeader)
    (filterConfigOpt : Option ProcessedDltFilterConfig) : IRes ParsedMessage :=
  match dlt_ext_step header.has_extended_header afterStorageAndNormalHeader with
  | .err e => .err e
  | .ok afterHeaders extendedHeader =>
    bodyPayload afterStorageAndNormalHeader afterHeaders extendedHeader header
      remaining sh filterConfigOpt

/-- The part of `dlt_message_intern` (`parse.rs` lines 837-919) that runs
after the storage-header step, on the bytes following the storage header;
`sh` is the storage header to place into a decoded `Item`.  Splitting here
is a faithful refactoring: the source inlines this straight-line block. -/
def dlt_message_body (afterStorageHeader : Bytes) (sh : Option StorageHeader)
    (filterConfigOpt : Option ProcessedDltFilterConfig) : IRes ParsedMessage :=
  match dlt_standard_header afterStorageHeader with
  | .err e => .err e
  | .ok afterStorageAndNormalHeader header =>
    bodyTail afterStorageAndNormalHeader header afterStorageHeader.length sh
      filterConfigOpt

/-- Mirror of `dlt_message_intern` (`parse.rs` lines 817-919). -/
def dlt_message_intern (input : Bytes)
    (filterConfigOpt : Option ProcessedDltFilterConfig)
    (withStorageHeader : Bool) : IRes ParsedMessage :=
  match (if withStorageHeader then dlt_storage_header input else .ok input none) with
  | .err e => .err e
  | .ok afterStorageHeader storageHeaderShifted =>
    dlt_message_body afterStorageHeader (storageHeaderShifted.map (·.1)) filterConfigOpt

/-- Mirror of `dlt_message` (`parse.rs` lines 809-815): run the internal
parser and collapse nom errors into `DltParseError`. -/
def dlt_message (input : Bytes)
    (filterConfigOpt : Option ProcessedDltFilterConfig)
    (withStorageHeader : Bool) : Except DltParseError (Bytes × ParsedMessage) :=
  match dlt_message_intern input filterConfigOpt withStorageHeader with
  | .ok rest pm => .ok (rest, pm)
  | .err ne => .error (nomToDltParseError ne "")

/-- The post-standard-header part of the debug-build instrumentation:
mirrors the control flow of `bodyTail` and reports `dlt_payload_underflow`
when the payload parser is reached (`(false, false)` otherwise). -/
def underflowTail (afterStorageAndNormalHeader : Bytes) (header : StandardHeader)
    (remaining : Nat) (filterConfigOpt : Option ProcessedDltFilterConfig) :
    Bool × Bool :=
  match dlt_ext_step header.has_extended_header afterStorageAndNormalHeader with
  | .err _ => (false, false)
  | .ok afterHeaders extendedHeader =>
    match validated_payload_length header remaining with
    | .error _ => (false, false)
    | .ok payloadLength =>
      if filtered_out extendedHeader filterConfigOpt header.ecu_id then
        (false, false)
      else dlt_payload_underflow afterHeaders (ehVerbose extendedHeader)
        payloadLength (ehIsControl extendedHeader)

def dlt_body_underflow (afterStorageHeader : Bytes)
    (filterConfigOpt : Option ProcessedDltFilterConfig) : Bool × Bool :=
  match dlt_standard_header afterStorageHeader with
  | .err _ => (false, false)
  | .ok afterStorageAndNormalHeader header =>
    underflowTail afterStorageAndNormalHeader header afterStorageHeader.length
      filterConfigOpt

/-- Debug-build instrumentation of `dlt_message`: mirrors the control flow
of `dlt_message_intern` and reports the `dlt_payload_underflow` flags when
the payload parser is reached (`(false, false)` otherwise). -/
def dlt_message_underflow (input : Bytes)
    (filterConfigOpt : Option ProcessedDltFilterConfig)
    (withStorageHeader : Bool) : Bool × Bool :=
  match (if withStorageHeader then dlt_storage_header input else .ok input none) with
  | .err _ => (false, false)
  | .ok afterStorageHeader _ => dlt_body_underflow afterStorageHeader filterConfigOpt

/-- Mirror of `dlt_consume_msg` (`parse.rs` lines 1022-1032): skip one
stored message, reporting the bytes consumed, or `none` on empty input. -/
def dlt_consume_msg (input : Bytes) : IRes (Option Nat) :=
  if input.isEmpty then .ok input none
  else
    (skip_storage_header input).bindR fun afterStorageHeader skippedBytes =>
      (dlt_standard_header afterStorageHeader).bindR fun _ header =>
        let overallLengthWithoutStorageHeader := header.overall_length
        (takeP overallLengthWithoutStorageHeader afterStorageHeader).bindR
          fun afterMessage _ =>
            .ok afterMessage (some (skippedBytes + overallLengthWithoutStorageHeader))

/-! ## Result classifiers for `dlt_message` -/

/-- The decoder returned the `IncompleteParse` error variant. -/
def exceptIsIncomplete {α : Type} : Except DltParseError α → Bool
  | .error (.incompleteParse _) => true
  | _ => false

/-- The decoder returned the `Unrecoverable` error variant. -/
def exceptIsUnrecoverable {α : Type} : Except DltParseError α → Bool
  | .error (.unrecoverable _) => true
  | _ => false

/-- The decoder returned the `ParsingHickup` error variant. -/
def exceptIsHickup {α : Type} : Except DltParseError α → Bool
  | .error (.parsingHickup _) => true
  | _ => false

/-- The decoder succeeded and consumed the entire input. -/
def isFullDecode (r : Except DltParseError (Bytes × ParsedMessage)) : Bool :=
  match r with
  | .ok (rest, _) => rest.isEmpty
  | _ => false

/-- The decoder succeeded with a regular `Item`. -/
def isItemResult (r : Except DltParseError (Bytes × ParsedMessage)) : Bool :=
  match r with
  | .ok (_, .item _) => true
  | _ => false

/-- The decoder succeeded with `Invalid`. -/
def isInvalidResult (r : Except DltParseError (Bytes × ParsedMessage)) : Bool :=
  match r with
  | .ok (_, .invalid) => true
  | _ => false

/-! ## Streaming-parser soundness framework

`parse.rs` builds `dlt_message` from nom *streaming* combinators.  Two
properties of such parsers drive the incomplete-monotonicity and
concatenation claims:

* extension consistency (`ExtOk`): a success is preserved, with the same
  value and consumption, when more bytes are appended;
* no failure on prefixes (`NoFailPre`): truncating the input of a
  successful parse can only give success or `Incomplete`, never an error
  or failure. -/

/-- Success on an input persists on any extension of that input. -/
def ExtOk {α : Type} (P : Bytes → IRes α) : Prop :=
  ∀ xs ys r v, P xs = .ok r v → P (xs ++ ys) = .ok (r ++ ys) v

/-- Truncating the input of a success never yields an error or failure. -/
def NoFailPre {α : Type} (P : Bytes → IRes α) : Prop :=
  ∀ xs r v, P xs = .ok r v → ∀ k, (P (xs.take k)).isFail = false

/-- A parser that never errs or fails on any input. -/
def NeverFail {α : Type} (P : Bytes → IRes α) : Prop :=
  ∀ xs, (P xs).isFail = false

theorem NeverFail.noFailPre {α : Type} {P : Bytes → IRes α} (h : NeverFail P) :
    NoFailPre P := fun _ _ _ _ _k => h _

/-- A success of an extension-consistent parser determines its behaviour on
successful prefixes: same value, and the leftovers agree. -/
theorem ext_prefix_ok {α : Type} {P : Bytes → IRes α} (hE : ExtOk P)
    {xs r v k r' v'} (h : P xs = .ok r v) (h' : P (xs.take k) = .ok r' v') :
    v' = v ∧ r = r' ++ xs.drop k := by
  have h2 := hE (xs.take k) (xs.drop k) r' v' h'
  rw [List.take_append_drop, h] at h2
  cases h2
  exact ⟨rfl, rfl⟩

theorem bindR_ExtOk {α β : Type} {P : Bytes → IRes α} {f : Bytes → α → IRes β}
    (hPE : ExtOk P) (hfE : ∀ v, ExtOk (fun xs => f xs v)) :
    ExtOk (fun xs => (P xs).bindR f) := by
  intro xs ys r v h
  simp only at h ⊢
  cases hP : P xs with
  | ok r1 v1 =>
    rw [hP] at h
    simp only [IRes.bindR] at h
    rw [hPE xs ys r1 v1 hP]
    simpa only [IRes.bindR] using hfE v1 r1 ys r v h
  | err e => rw [hP] at h; simp [IRes.bindR] at h

theorem bindR_NoFailPre {α β : Type} {P : Bytes → IRes α} {f : Bytes → α → IRes β}
    (hPE : ExtOk P) (hPN : NoFailPre P) (hfN : ∀ v, NoFailPre (fun xs => f xs v)) :
    NoFailPre (fun xs => (P xs).bindR f) := by
  intro xs r v h k
  simp only at h ⊢
  cases hP : P xs with
  | err e => rw [hP] at h; simp [IRes.bindR] at h
  | ok r1 v1 =>
    rw [hP] at h
    simp only [IRes.bindR] at h
    cases hPk : P (xs.take k) with
    | err e =>
      cases e with
      | incomplete n => simp [IRes.bindR, hPk, IRes.isFail]
      | error e0 =>
        have := hPN xs r1 v1 hP k
        rw [hPk] at this
        simp [IRes.isFail] at this
      | failure e0 =>
        have := hPN xs r1 v1 hP k
        rw [hPk] at this
        simp [IRes.isFail] at this
    | ok r1p v1p =>
      obtain ⟨hv, hr⟩ := ext_prefix_ok hPE hP hPk
      subst hv
      simp only [IRes.bindR, hPk]
      have hpre : r1p = r1.take r1p.length := by
        rw [hr, List.take_left]
      rw [hpre]
      exact hfN v1p r1 r v h r1p.length

/-- The trivial continuation that consumes nothing and returns a value. -/
theorem pure_ExtOk {α : Type} (c : α) : ExtOk (fun xs => IRes.ok xs c) := by
  intro xs ys r v h
  cases h
  rfl

theorem pure_NoFailPre {α : Type} (c : α) : NoFailPre (fun xs => IRes.ok xs c) := by
  intro xs r v h _k
  simp [IRes.isFail]

theorem err_ExtOk {α : Type} (e : NomErr) : ExtOk (fun _ : Bytes => (IRes.err e : IRes α)) := by
  intro xs ys r v h
  cases h

theorem err_NoFailPre {α : Type} (e : NomErr) :
    NoFailPre (fun _ : Bytes => (IRes.err e : IRes α)) := by
  intro xs r v h
  cases h

theorem parseNum_ExtOk (n : Nat) (fold : Bytes → Nat) : ExtOk (parseNum n fold) := by
  intro xs ys r v h
  simp only [parseNum] at h ⊢
  split at h
  · cases h
  · rename_i hlen
    cases h
    have hn : n ≤ xs.length := Nat.le_of_not_lt hlen
    rw [if_neg (by simp [List.length_append]; omega)]
    rw [List.take_append_of_le_length hn, List.drop_append_of_le_length hn]

theorem parseNum_neverFail (n : Nat) (fold : Bytes → Nat) : NeverFail (parseNum n fold) := by
  intro xs
  simp only [parseNum]
  split <;> simp [IRes.isFail]

theorem takeP_ExtOk (n : Nat) : ExtOk (takeP n) := by
  intro xs ys r v h
  simp only [takeP] at h ⊢
  split at h
  · cases h
  · rename_i hlen
    cases h
    have hn : n ≤ xs.length := Nat.le_of_not_lt hlen
    rw [if_neg (by simp [List.length_append]; omega)]
    rw [List.take_append_of_le_length hn, List.drop_append_of_le_length hn]

theorem takeP_neverFail (n : Nat) : NeverFail (takeP n) := by
  intro xs
  simp only [takeP]
  split <;> simp [IRes.isFail]

theorem firstStop_lt_length {pred : Nat → Bool} :
    ∀ {xs : Bytes} {i : Nat}, firstStop pred xs = some i → i < xs.length := by
  intro xs
  induction xs with
  | nil => intro i h; simp [firstStop] at h
  | cons b rest ih =>
    intro i h
    simp only [firstStop] at h
    split at h
    · cases hr : firstStop pred rest with
      | none => rw [hr] at h; simp at h
      | some j =>
        rw [hr] at h
        simp only [Option.map_some'] at h
        cases h
        have := ih hr
        simp only [List.length_cons]
        omega
    · cases h
      simp

theorem firstStop_cons (pred : Nat → Bool) (b : Nat) (rest : Bytes) :
    firstStop pred (b :: rest) =
      if pred b then (firstStop pred rest).map (· + 1) else some 0 := rfl

theorem firstStop_append_some {pred : Nat → Bool} {xs : Bytes} {i : Nat}
    (h : firstStop pred xs = some i) (ys : Bytes) :
    firstStop pred (xs ++ ys) = some i := by
  induction xs generalizing i with
  | nil => simp [firstStop] at h
  | cons b rest ih =>
    rw [firstStop_cons] at h
    rw [List.cons_append, firstStop_cons]
    by_cases hb : pred b
    · rw [if_pos hb] at h ⊢
      cases hr : firstStop pred rest with
      | none => rw [hr] at h; simp at h
      | some j =>
        rw [hr, Option.map_some'] at h
        rw [ih hr, Option.map_some']
        exact h
    · rw [if_neg hb] at h ⊢
      exact h

theorem firstStop_append_none {pred : Nat → Bool} {xs : Bytes}
    (h : firstStop pred xs = none) (ys : Bytes) :
    firstStop pred (xs ++ ys) = (firstStop pred ys).map (· + xs.length) := by
  induction xs with
  | nil => simp [firstStop]
  | cons b rest ih =>
    rw [firstStop_cons] at h
    rw [List.cons_append, firstStop_cons]
    by_cases hb : pred b
    · rw [if_pos hb] at h ⊢
      cases hr : firstStop pred rest with
      | some j => rw [hr] at h; simp at h
      | none =>
        rw [ih hr]
        cases hy : firstStop pred ys with
        | none => simp
        | some j =>
          simp only [Option.map_some', List.length_cons]
          exact congrArg some (by omega)
    · rw [if_neg hb] at h
      cases h

theorem firstStop_take {pred : Nat → Bool} {xs : Bytes} {i : Nat}
    (h : firstStop pred xs = some i) (k : Nat) (hk : i < k) :
    firstStop pred (xs.take k) = some i := by
  induction xs generalizing i k with
  | nil => simp [firstStop] at h
  | cons b rest ih =>
    rw [firstStop_cons] at h
    cases k with
    | zero => omega
    | succ k0 =>
      rw [List.take_succ_cons, firstStop_cons]
      by_cases hb : pred b
      · rw [if_pos hb] at h ⊢
        cases hr : firstStop pred rest with
        | none => rw [hr] at h; simp at h
        | some j =>
          rw [hr, Option.map_some'] at h
          cases h
          rw [ih hr k0 (by omega), Option.map_some']
      · rw [if_neg hb] at h ⊢
        exact h

theorem firstStop_take_none {pred : Nat → Bool} {xs : Bytes}
    (h : firstStop pred xs = none) (k : Nat) :
    firstStop pred (xs.take k) = none := by
  induction xs generalizing k with
  | nil => simp [firstStop]
  | cons b rest ih =>
    rw [firstStop_cons] at h
    cases k with
    | zero => simp [firstStop]
    | succ k0 =>
      rw [List.take_succ_cons, firstStop_cons]
      by_cases hb : pred b
      · rw [if_pos hb] at h ⊢
        cases hr : firstStop pred rest with
        | none => rw [ih hr k0]; rfl
        | some j => rw [hr] at h; simp at h
      · rw [if_neg hb] at h
        cases h

theorem firstStop_take_big {pred : Nat → Bool} {xs : Bytes} {i : Nat}
    (h : firstStop pred xs = some i) (k : Nat) (hk : k ≤ i) :
    firstStop pred (xs.take k) = none := by
  induction xs generalizing i k with
  | nil => simp [firstStop] at h
  | cons b rest ih =>
    rw [firstStop_cons] at h
    cases k with
    | zero => simp [firstStop]
    | succ k0 =>
      rw [List.take_succ_cons, firstStop_cons]
      by_cases hb : pred b
      · rw [if_pos hb] at h ⊢
        cases hr : firstStop pred rest with
        | none => rw [hr] at h; simp at h
        | some j =>
          rw [hr, Option.map_some'] at h
          cases h
          rw [ih hr k0 (by omega)]
          rfl
      · rw [if_neg hb] at h
        cases h
        omega

theorem takeWhileMN0_ExtOk (n : Nat) (pred : Nat → Bool) :
    ExtOk (takeWhileMN0 n pred) := by
  intro xs ys r v h
  simp only [takeWhileMN0] at h ⊢
  cases hf : firstStop pred xs with
  | some i =>
    rw [hf] at h
    simp only at h
    cases h
    rw [firstStop_append_some hf ys]
    simp only
    have hi : i < xs.length := firstStop_lt_length hf
    have hmin : min i n ≤ xs.length := by omega
    rw [List.take_append_of_le_length hmin, List.drop_append_of_le_length hmin]
  | none =>
    rw [hf] at h
    simp only at h
    split at h
    · rename_i hn
      have hn' : n ≤ xs.length := hn
      cases h
      rw [firstStop_append_none hf ys]
      cases hy : firstStop pred ys with
      | none =>
        simp only [Option.map_none']
        rw [if_pos (by simp only [List.length_append]; omega)]
        rw [List.take_append_of_le_length hn', List.drop_append_of_le_length hn']
      | some j =>
        simp only [Option.map_some']
        have hmm : min (j + xs.length) n = n := by omega
        rw [hmm, List.take_append_of_le_length hn', List.drop_append_of_le_length hn']
    · cases h

theorem takeWhileMN0_neverFail (n : Nat) (pred : Nat → Bool) :
    NeverFail (takeWhileMN0 n pred) := by
  intro xs
  unfold takeWhileMN0
  cases firstStop pred xs with
  | some i => rfl
  | none =>
    dsimp only
    by_cases hn : n ≤ xs.length
    · rw [if_pos hn]; rfl
    · rw [if_neg hn]; rfl

theorem tagP_ExtOk (t : Bytes) : ExtOk (tagP t) := by
  intro xs ys r v h
  simp only [tagP] at h ⊢
  split at h
  · rename_i hpre
    cases h
    rw [List.isPrefixOf_iff_prefix] at hpre
    have hlen : t.length ≤ xs.length := hpre.length_le
    rw [if_pos (by rw [List.isPrefixOf_iff_prefix]; exact hpre.trans (List.prefix_append xs ys))]
    rw [List.drop_append_of_le_length hlen]
  · split at h <;> cases h

theorem tagP_NoFailPre (t : Bytes) : NoFailPre (tagP t) := by
  intro xs r v h k
  simp only [tagP] at h ⊢
  split at h
  · rename_i hpre0
    cases h
    rw [List.isPrefixOf_iff_prefix] at hpre0
    by_cases hk : t.length ≤ k
    · have hyes : t.isPrefixOf (xs.take k) := by
        rw [List.isPrefixOf_iff_prefix, List.prefix_iff_eq_take, List.take_take,
          min_eq_left hk]
        exact List.prefix_iff_eq_take.mp hpre0
      rw [if_pos hyes]
      rfl
    · have hno : ¬ t.isPrefixOf (xs.take k) := by
        intro hcon
        rw [List.isPrefixOf_iff_prefix] at hcon
        have h1 := hcon.length_le
        rw [List.length_take] at h1
        omega
      rw [if_neg hno]
      have hyes2 : (xs.take k).isPrefixOf t := by
        rw [List.isPrefixOf_iff_prefix]
        obtain ⟨s, hs⟩ := hpre0
        subst hs
        rw [List.take_append_of_le_length (by omega)]
        exact List.take_prefix _ _
      rw [if_pos hyes2]
      rfl
  · split at h <;> cases h

theorem countP_ExtOk {α : Type} {p : Bytes → IRes α} (hE : ExtOk p) (n : Nat) :
    ExtOk (countP p n) := by
  induction n with
  | zero =>
    intro xs ys r v h
    simp only [countP] at h ⊢
    cases h
    rfl
  | succ m ih =>
    have : ExtOk (fun xs => (p xs).bindR fun r v =>
        (countP p m r).bindR fun rest vs => .ok rest (v :: vs)) := by
      apply bindR_ExtOk hE
      intro v
      exact bindR_ExtOk ih fun vs => pure_ExtOk _
    intro xs ys r v h
    exact this xs ys r v h

theorem countP_NoFailPre {α : Type} {p : Bytes → IRes α}
    (hE : ExtOk p) (hN : NoFailPre p) (n : Nat) :
    NoFailPre (countP p n) := by
  induction n with
  | zero =>
    intro xs r v h k
    simp only [countP] at h ⊢
    simp [IRes.isFail]
  | succ m ih =>
    have : NoFailPre (fun xs => (p xs).bindR fun r v =>
        (countP p m r).bindR fun rest vs => .ok rest (v :: vs)) := by
      apply bindR_NoFailPre hE hN
      intro v
      exact bindR_NoFailPre (countP_ExtOk hE m) ih fun vs => pure_NoFailPre _
    intro xs r v h k
    exact this xs r v h k

/-! ## FIBEX metadata lookup (`fibex/mod.rs`) -/

/-- Mirror of `FrameMetadataIdentification` (`fibex/mod.rs` lines 67-71);
strings are kept as UTF-8 byte lists like everywhere else in this
development. -/
structure FrameMetadataIdentification where
  context_id : Bytes
  app_id : Bytes
  frame_id : Bytes
deriving DecidableEq, Repr

/-- Mirror of `PduMetadata` (`fibex/mod.rs` lines 91-94). -/
structure PduMetadata where
  description : Option Bytes
  signal_types : List TypeInfo
deriving DecidableEq, Repr

/-- Mirror of `FrameMetadata` (`fibex/mod.rs` lines 81-88). -/
structure FrameMetadata where
  short_name : Bytes
  pdus : List PduMetadata
  application_id : Option Bytes
  context_id : Option Bytes
  message_type : Option Bytes
  message_info : Option Bytes
deriving DecidableEq, Repr

/-- A `HashMap` with the keys listed at most once, modelled as an
association list; `get` is `hashMapGet` below. -/
structure FibexMetadata where
  frame_map_with_key : List (FrameMetadataIdentification × FrameMetadata)
  frame_map : List (Bytes × FrameMetadata)
deriving DecidableEq, Repr

/-- `HashMap::get` on the association-list model: the value of the first
entry with the wanted key. -/
def hashMapGet {κ ν : Type} [DecidableEq κ] (m : List (κ × ν)) (k : κ) : Option ν :=
  (m.find? (fun p => decide (p.1 = k))).map (·.2)

/-- The `format!("ID_{}", id)` key of `extract_metadata`, as UTF-8 bytes. -/
def idText (id : Nat) : Bytes := [0x49, 0x44, 0x5F] ++ (Nat.toDigits 10 id).map Char.toNat

/-- Mirror of `extract_metadata` (`fibex/mod.rs` lines 964-981): look up the
frame by `(context_id, app_id, "ID_n")` when an extended header is present,
and by `"ID_n"` alone otherwise. -/
def extract_metadata (fibexMetadata : FibexMetadata) (id : Nat)
    (extended_header : Option ExtendedHeader) : Option FrameMetadata :=
  let id_text := idText id
  match extended_header with
  | some extendedHeader =>
    hashMapGet fibexMetadata.frame_map_with_key
      { context_id := extendedHeader.context_id,
        app_id := extendedHeader.application_id,
        frame_id := id_text }
  | none => hashMapGet fibexMetadata.frame_map id_text

/-- With pairwise-distinct keys, `hashMapGet` returns `some v` exactly for
the listed binding. -/
theorem hashMapGet_eq_some_iff {κ ν : Type} [DecidableEq κ]
    {m : List (κ × ν)} (hnd : (m.map Prod.fst).Nodup) (k : κ) (v : ν) :
    hashMapGet m k = some v ↔ (k, v) ∈ m := by
  induction m with
  | nil => simp [hashMapGet]
  | cons p rest ih =>
    obtain ⟨k0, v0⟩ := p
    simp only [List.map_cons, List.nodup_cons] at hnd
    obtain ⟨hk0, hrest⟩ := hnd
    by_cases hk : k0 = k
    · subst hk
      rw [hashMapGet, List.find?_cons_of_pos _ (by exact decide_eq_true rfl)]
      simp only [Option.map_some', Option.some_inj, List.mem_cons, Prod.mk.injEq,
        true_and, eq_self_iff_true]
      constructor
      · intro h
        exact Or.inl h.symm
      · rintro (h2 | h2)
        · exact h2.symm
        · exact absurd (List.mem_map_of_mem Prod.fst h2) (by simpa using hk0)
    · rw [hashMapGet, List.find?_cons_of_neg _ (by simp [hk])]
      have ih2 := ih hrest
      rw [hashMapGet] at ih2
      rw [ih2]
      simp only [List.mem_cons, Prod.mk.injEq]
      constructor
      · exact Or.inr
      · rintro (h2 | h2)
        · exact absurd h2.1.symm hk
        · exact h2

/-! ## Concrete inputs used by counterexamples and witnesses -/

/-- The worked "verbose bool" message of the spec (scenario 1): storage
header with ECU `ECU`, extended header, app `LOG`, ctx `TES2`, one bool
argument. -/
def scenarioOneMessage : Bytes :=
  [0x44, 0x4C, 0x54, 0x01, 0x2B, 0x2C, 0xC9, 0x4D, 0x7A, 0xE8, 0x01, 0x00,
   0x45, 0x43, 0x55, 0x00, 0x21, 0x0A, 0x00, 0x13, 0x41, 0x01, 0x4C, 0x4F,
   0x47, 0x00, 0x54, 0x45, 0x53, 0x32, 0x10, 0x00, 0x00, 0x00, 0x6F]

/-- A headers-only non-verbose message: `overall_length = 6`, so
`payload_length = 2`, with exactly the declared six bytes present. -/
def shortNonVerbose : Bytes := [0x00, 0x00, 0x00, 0x06, 0xAA, 0xBB]

/-- The same six-byte message followed by four unrelated bytes, so that the
non-verbose branch's `input.len() < 4` guard passes while
`payload_length = 2 < 4`. -/
def shortNonVerboseLong : Bytes :=
  [0x00, 0x00, 0x00, 0x06, 0xAA, 0xBB, 0xCC, 0xDD, 0xEE, 0xFF]

/-- A control message (extended header, `MSTP = 3`) whose
`overall_length = 14` equals the headers length, so `payload_length = 0`. -/
def emptyControlMessage : Bytes :=
  [0x01, 0x00, 0x00, 0x0E, 0x16, 0x00, 0x41, 0x50, 0x50, 0x00,
   0x43, 0x4F, 0x4E, 0x00]

/-- A valid storage-framed non-verbose message: 16-byte storage header and
`overall_length = 8` (4 header bytes, 4 payload bytes). -/
def storedNonVerbose : Bytes :=
  [0x44, 0x4C, 0x54, 0x01, 0, 0, 0, 0, 0, 0, 0, 0, 0x45, 0x43, 0x55, 0x00,
   0x00, 0x2A, 0x00, 0x08, 0x01, 0x02, 0x03, 0x04]

/-- A stored message whose storage header carries ECU `XYZ` while the
standard header has no ECU id; extended header is a verbose Info log with
app `LOG` and ctx `TES2`. -/
def storedNoHeaderEcu : Bytes :=
  [0x44, 0x4C, 0x54, 0x01, 0, 0, 0, 0, 0, 0, 0, 0, 0x58, 0x59, 0x5A, 0x00,
   0x01, 0x07, 0x00, 0x13, 0x41, 0x01, 0x4C, 0x4F, 0x47, 0x00, 0x54, 0x45,
   0x53, 0x32, 0x10, 0x00, 0x00, 0x00, 0x6F]

/-- A filter that admits only ECU id `ECU` and constrains nothing else. -/
def ecuOnlyFilter : ProcessedDltFilterConfig :=
  { min_log_level := none, app_ids := none, ecu_ids := some [[0x45, 0x43, 0x55]],
    context_ids := none, app_id_count := 0, context_id_count := 0 }

/-! ## Claim C8: statistics merge -/

/-- C8: `LevelDistribution::merge` adds all eight per-level tallies
field-wise, so it is commutative and associative, and
`StatisticInfo::merge` sets `contained_non_verbose` to the logical OR of
the two operands' flags. -/
theorem C8_statistics_merge_algebra :
    (∀ a b : LevelDistribution, a.merge b = b.merge a) ∧
    (∀ a b c : LevelDistribution, (a.merge b).merge c = a.merge (b.merge c)) ∧
    (∀ s t : StatisticInfo,
      (s.merge t).contained_non_verbose =
        (s.contained_non_verbose || t.contained_non_verbose)) := by
  refine ⟨?_, ?_, ?_⟩
  · intro a b
    simp only [LevelDistribution.merge, LevelDistribution.mk.injEq]
    omega
  · intro a b c
    simp only [LevelDistribution.merge, LevelDistribution.mk.injEq]
    omega
  · intro s t
    rfl

/-! ## Claim C4: the zero-terminated-string contract -/

/-- If every byte before position `k` satisfies `pred` and the byte at `k`
does not, then `k` is the first stopping position. -/
theorem firstStop_eq {pred : Nat → Bool} :
    ∀ (xs : Bytes) (k : Nat) (b : Nat),
      (∀ c ∈ xs.take k, pred c = true) → xs.get? k = some b → pred b = false →
      firstStop pred xs = some k := by
  intro xs
  induction xs with
  | nil => intro k b _ hget _; simp at hget
  | cons x rest ih =>
    intro k b hall hget hb
    cases k with
    | zero =>
      simp only [List.get?] at hget
      cases hget
      rw [firstStop_cons, if_neg (by simp [hb])]
    | succ k0 =>
      have hx : pred x = true := hall x (by simp)
      rw [firstStop_cons, if_pos hx]
      have hall0 : ∀ c ∈ rest.take k0, pred c = true := by
        intro c hc
        exact hall c (by simp [List.take_succ_cons, hc])
      rw [ih k0 b hall0 (by simpa using hget) hb]
      rfl

/-- C4: reading `size` bytes where the first `k < size` are non-null
followed by a null byte (with at least `size` bytes available) yields the
first `k` bytes truncated to their valid-UTF-8 prefix and consumes exactly
`size` bytes. -/
theorem C4_zero_terminated_string (xs : Bytes) (size k : Nat)
    (hk : k < size)
    (hnn : ∀ b ∈ xs.take k, b ≠ 0)
    (h0 : xs.get? k = some 0)
    (hlen : size ≤ xs.length) :
    dlt_zero_terminated_string xs size = .ok (xs.drop size) (utf8Valid (xs.take k)) := by
  have hfs : firstStop isNotNull xs = some k := by
    refine firstStop_eq xs k 0 ?_ h0 (by rfl)
    intro c hc
    simpa [isNotNull] using hnn c hc
  have hklen : k < xs.length := by
    by_contra hc
    push_neg at hc
    rw [List.get?_eq_none.mpr hc] at h0
    cases h0
  unfold dlt_zero_terminated_string takeWhileMN0
  rw [hfs]
  simp only [IRes.bindR]
  have hmin : min k size = k := min_eq_left (le_of_lt hk)
  rw [hmin]
  have htakelen : (xs.take k).length = k := by
    rw [List.length_take]
    omega
  rw [htakelen]
  unfold takeP
  rw [if_neg (by rw [List.length_drop]; omega)]
  simp only [IRes.bindR]
  rw [List.drop_drop]
  have heq : k + (size - k) = size := by omega
  rw [heq]

/-- C4 witness: the crate's own non-UTF-8 test vector. -/
theorem C4_zero_terminated_string_witness :
    dlt_zero_terminated_string [0x41, 0, 146, 150] 4 =
      .ok (([0x41, 0, 146, 150] : Bytes).drop 4)
        (utf8Valid (([0x41, 0, 146, 150] : Bytes).take 1)) :=
  C4_zero_terminated_string [0x41, 0, 146, 150] 4 1 (by decide) (by decide)
    (by decide) (by decide)

/-! ## Claim C7: FIBEX metadata lookup -/

/-- C7: with an extended header, `extract_metadata` returns exactly the
entry stored in the disambiguated map under
`(context_id, app_id, "ID_n")`; without one, exactly the entry stored in
the frame-id fallback map under `"ID_n"` (maps with distinct keys). -/
theorem C7_extract_metadata_lookup (fm : FibexMetadata) (id : Nat)
    (eh : ExtendedHeader) (v : FrameMetadata)
    (h1 : (fm.frame_map_with_key.map Prod.fst).Nodup)
    (h2 : (fm.frame_map.map Prod.fst).Nodup) :
    (extract_metadata fm id (some eh) = some v ↔
      ({ context_id := eh.context_id, app_id := eh.application_id,
         frame_id := idText id }, v) ∈ fm.frame_map_with_key) ∧
    (extract_metadata fm id none = some v ↔ (idText id, v) ∈ fm.frame_map) :=
  ⟨hashMapGet_eq_some_iff h1 _ v, hashMapGet_eq_some_iff h2 _ v⟩

/-- The frame metadata used for the C7 witness. -/
def sampleFrame : FrameMetadata :=
  { short_name := [0x46, 0x36, 0x34], pdus := [], application_id := none,
    context_id := none, message_type := none, message_info := none }

/-- An extended header with app id `DR` and context id `CTX1` (the spec's
FIBEX lookup scenario). -/
def sampleExtendedHeader : ExtendedHeader :=
  { verbose := false, argument_count := 0, message_type := .log .info,
    application_id := [0x44, 0x52], context_id := [0x43, 0x54, 0x58, 0x31] }

/-- A FIBEX model with frame `ID_64` registered under `(CTX1, DR)` and in
the fallback table. -/
def sampleFibex : FibexMetadata :=
  { frame_map_with_key :=
      [({ context_id := [0x43, 0x54, 0x58, 0x31], app_id := [0x44, 0x52],
          frame_id := idText 64 }, sampleFrame)],
    frame_map := [(idText 64, sampleFrame)] }

/-- C7 witness: the spec's `ID_64` under `(CTX1, DR)` scenario. -/
theorem C7_extract_metadata_lookup_witness :
    extract_metadata sampleFibex 64 (some sampleExtendedHeader) = some sampleFrame ∧
    extract_metadata sampleFibex 64 none = some sampleFrame :=
  ⟨(C7_extract_metadata_lookup sampleFibex 64 sampleExtendedHeader sampleFrame
      (by decide) (by decide)).1.mpr (by decide),
   (C7_extract_metadata_lookup sampleFibex 64 sampleExtendedHeader sampleFrame
      (by decide) (by decide)).2.mpr (by decide)⟩

/-! ## Claim C3: error class of too-short control / non-verbose payloads -/

/-- C3 counterexample: a control message with `payload_length = 0` and a
non-verbose message with fewer than 4 payload bytes make `dlt_message`
return `Unrecoverable`, not the claimed `ParsingHickup`. -/
theorem C3_error_class_counterexample :
    exceptIsUnrecoverable (dlt_message emptyControlMessage none false) = true ∧
    exceptIsUnrecoverable (dlt_message shortNonVerbose none false) = true ∧
    exceptIsHickup (dlt_message emptyControlMessage none false) = false ∧
    exceptIsHickup (dlt_message shortNonVerbose none false) = false := by
  decide

/-- C3 amended: a control message with `payload_length < 1`, or a
non-verbose message with fewer than 4 input bytes, raises a nom `Failure`
in `dlt_payload`, which `dlt_message` maps to the `Unrecoverable` variant
(not `ParsingHickup`, not `IncompleteParse`). -/
theorem C3_error_class :
    (∀ (T : Endianness) (input : Bytes) (pl ac : Nat), pl < 1 →
        dlt_payload T input false pl ac true =
          .err (.failure (.parsingHickup "error, payload too short"))) ∧
    (∀ (T : Endianness) (input : Bytes) (pl ac : Nat), input.length < 4 →
        dlt_payload T input false pl ac false =
          .err (.failure (.parsingHickup "error, payload too short"))) ∧
    exceptIsUnrecoverable (dlt_message emptyControlMessage none false) = true ∧
    exceptIsUnrecoverable (dlt_message shortNonVerbose none false) = true := by
  refine ⟨?_, ?_, by decide, by decide⟩
  · intro T input pl ac h
    simp [dlt_payload, h]
  · intro T input pl ac h
    simp [dlt_payload, h]

/-- C3 witness: the amended theorem applied at concrete inputs. -/
theorem C3_error_class_witness :
    dlt_payload .little [1, 2, 3, 4, 5] false 0 7 true =
      .err (.failure (.parsingHickup "error, payload too short")) ∧
    dlt_payload .big [1, 2] false 9 0 false =
      .err (.failure (.parsingHickup "error, payload too short")) :=
  ⟨C3_error_class.1 .little [1, 2, 3, 4, 5] 0 7 (by decide),
   C3_error_class.2.1 .big [1, 2] 9 0 (by decide)⟩

/-! ## Claim C10: the `u16` subtractions in `dlt_payload` -/

/-- The control-branch subtraction `payload_length - 1` is guarded by the
`payload_length < 1` check and never underflows. -/
theorem dlt_payload_underflow_fst (input : Bytes) (vb : Bool) (pl : Nat)
    (ic : Bool) : (dlt_payload_underflow input vb pl ic).1 = false := by
  unfold dlt_payload_underflow
  split
  · rfl
  · split
    · split
      · rfl
      · rename_i h
        simp [h]
    · split <;> rfl

/-- C10 counterexample: on a non-verbose message declaring
`payload_length = 2` but followed by at least 4 bytes, the source's
`payload_length - 4` is evaluated with `payload_length < 4`: the `u16`
subtraction underflows (a panic under debug assertions). -/
theorem C10_underflow_counterexample :
    dlt_message_underflow shortNonVerboseLong none false = (false, true) := by
  decide

/-- C10 amended: the control-branch subtraction `payload_length - 1` never
underflows, but the non-verbose `payload_length - 4` can (it is guarded
only by `input.len() < 4`): at the concrete input it underflows, and with
release-build wrap-around `dlt_message` returns `IncompleteParse`. -/
theorem C10_no_control_underflow :
    (∀ (input : Bytes) (cfg : Option ProcessedDltFilterConfig) (ws : Bool),
        (dlt_message_underflow input cfg ws).1 = false) ∧
    (dlt_message_underflow shortNonVerboseLong none false).2 = true ∧
    exceptIsIncomplete (dlt_message shortNonVerboseLong none false) = true := by
  refine ⟨?_, by decide, by decide⟩
  intro input cfg ws
  simp only [dlt_message_underflow, dlt_body_underflow, underflowTail, dlt_ext_step]
  repeat' split
  all_goals first
  | rfl
  | exact dlt_payload_underflow_fst _ _ _ _

/-! ## Claim C6: the ECU-id filter rule -/

/-- C6 counterexample: a message whose storage header carries ECU `XYZ`
(not in the configured set, which holds only `ECU`) while the standard
header has no ECU id is decoded as a regular `Item` — it is not dropped,
although the claim says the drop decision is true whenever the storage or
header ECU id is missing from the set. -/
theorem C6_storage_ecu_counterexample :
    isItemResult (dlt_message storedNoHeaderEcu (some ecuOnlyFilter) true) = true ∧
    (match dlt_message storedNoHeaderEcu (some ecuOnlyFilter) true with
     | .ok (_, .item m) => m.storage_header.map (·.ecu_id)
     | _ => none) = some [0x58, 0x59, 0x5A] ∧
    ecuOnlyFilter.ecu_ids = some [[0x45, 0x43, 0x55]] := by
  decide

/-- C6 amended: when the first three rules pass, the drop decision with a
configured `ecu_ids` set is true exactly when the *standard header's* ECU
id is present and not in the set; the storage header is never consulted,
so a message whose only ECU id is in the storage header is kept. -/
theorem C6_ecu_rule (eh : ExtendedHeader) (cfg : ProcessedDltFilterConfig)
    (ecuOpt : Option Bytes) (s : List Bytes)
    (hecu : cfg.ecu_ids = some s)
    (h1 : (match cfg.min_log_level with
           | some m => eh.skip_with_level m
           | none => false) = false)
    (h2 : (match cfg.app_ids with
           | some l => !l.contains eh.application_id
           | none => false) = false)
    (h3 : (match cfg.context_ids with
           | some l => !l.contains eh.context_id
           | none => false) = false) :
    filtered_out (some eh) (some cfg) ecuOpt =
      (match ecuOpt with
       | some e => !s.contains e
       | none => false) := by
  simp only [filtered_out]
  rw [h1, h2, h3, hecu]
  simp only [Bool.false_eq_true, if_false]
  cases ecuOpt with
  | none => simp
  | some e => by_cases hc : s.contains e <;> simp [hc]

/-- C6 witness: a storage-only ECU id (passed as `none` by
`dlt_message_intern`) is not dropped. -/
theorem C6_ecu_rule_witness :
    filtered_out (some sampleExtendedHeader) (some ecuOnlyFilter) none = false :=
  C6_ecu_rule sampleExtendedHeader ecuOnlyFilter none [[0x45, 0x43, 0x55]]
    (by decide) (by decide) (by decide) (by decide)

/-! ## Claim C2: resync consumption -/

instance {ε α : Type} [DecidableEq ε] [DecidableEq α] : DecidableEq (Except ε α) :=
  fun a b =>
    match a, b with
    | .ok x, .ok y =>
      if h : x = y then .isTrue (by rw [h]) else .isFalse (by intro hc; cases hc; exact h rfl)
    | .error x, .error y =>
      if h : x = y then .isTrue (by rw [h]) else .isFalse (by intro hc; cases hc; exact h rfl)
    | .ok _, .error _ => .isFalse (by intro hc; cases hc)
    | .error _, .ok _ => .isFalse (by intro hc; cases hc)

/-- C2 counterexample: for three garbage bytes followed by a valid stored
message, `skip_till_after_next_storage_header` reports 19 consumed bytes
(garbage plus the 16-byte storage header), not the claimed
`garbage.len() = 3`. -/
theorem C2_resync_counterexample :
    skip_till_after_next_storage_header ([0, 1, 2] ++ storedNonVerbose) =
      .ok (storedNonVerbose.drop 16, 19) ∧ (19 : Nat) ≠ 3 := by
  decide

/-! ## Soundness of the composite parsers -/

theorem ExtOk_ite (c : Prop) [Decidable c] {α : Type} {P Q : Bytes → IRes α}
    (hP : ExtOk P) (hQ : ExtOk Q) : ExtOk (fun xs => if c then P xs else Q xs) := by
  by_cases h : c
  · simp only [if_pos h]; exact hP
  · simp only [if_neg h]; exact hQ

theorem NoFailPre_ite (c : Prop) [Decidable c] {α : Type} {P Q : Bytes → IRes α}
    (hP : NoFailPre P) (hQ : NoFailPre Q) :
    NoFailPre (fun xs => if c then P xs else Q xs) := by
  by_cases h : c
  · simp only [if_pos h]; exact hP
  · simp only [if_neg h]; exact hQ

theorem err_const_ExtOk {α : Type} (e : NomErr) :
    ExtOk (fun _ : Bytes => (IRes.err e : IRes α)) := err_ExtOk e

theorem zts_ExtOk (size : Nat) : ExtOk (fun s => dlt_zero_terminated_string s size) := by
  unfold dlt_zero_terminated_string
  exact bindR_ExtOk (takeWhileMN0_ExtOk size isNotNull)
    (fun content => bindR_ExtOk (takeP_ExtOk _) (fun _ => pure_ExtOk _))

theorem zts_NoFailPre (size : Nat) :
    NoFailPre (fun s => dlt_zero_terminated_string s size) := by
  unfold dlt_zero_terminated_string
  exact bindR_NoFailPre (takeWhileMN0_ExtOk size isNotNull)
    ((takeWhileMN0_neverFail size isNotNull).noFailPre)
    (fun content => bindR_NoFailPre (takeP_ExtOk _)
      ((takeP_neverFail _).noFailPre) (fun _ => pure_NoFailPre _))

theorem maybe_parse_ecu_id_ExtOk (a : Bool) : ExtOk (maybe_parse_ecu_id a) := by
  unfold maybe_parse_ecu_id
  exact ExtOk_ite _ (bindR_ExtOk (zts_ExtOk 4) (fun v => pure_ExtOk _)) (pure_ExtOk none)

theorem maybe_parse_ecu_id_NoFailPre (a : Bool) : NoFailPre (maybe_parse_ecu_id a) := by
  unfold maybe_parse_ecu_id
  exact NoFailPre_ite _
    (bindR_NoFailPre (zts_ExtOk 4) (zts_NoFailPre 4) (fun v => pure_NoFailPre _))
    (pure_NoFailPre none)

theorem maybe_parse_u32_ExtOk (a : Bool) : ExtOk (maybe_parse_u32 a) := by
  unfold maybe_parse_u32
  exact ExtOk_ite _ (bindR_ExtOk (parseNum_ExtOk 4 beVal) (fun v => pure_ExtOk _))
    (pure_ExtOk none)

theorem maybe_parse_u32_NoFailPre (a : Bool) : NoFailPre (maybe_parse_u32 a) := by
  unfold maybe_parse_u32
  exact NoFailPre_ite _
    (bindR_NoFailPre (parseNum_ExtOk 4 beVal) ((parseNum_neverFail 4 beVal).noFailPre)
      (fun v => pure_NoFailPre _))
    (pure_NoFailPre none)

theorem dlt_standard_header_ExtOk : ExtOk dlt_standard_header := by
  unfold dlt_standard_header
  refine bindR_ExtOk (parseNum_ExtOk 1 beVal) (fun htb => ?_)
  refine bindR_ExtOk (parseNum_ExtOk 1 beVal) (fun cnt => ?_)
  refine bindR_ExtOk (parseNum_ExtOk 2 beVal) (fun ov => ?_)
  refine bindR_ExtOk (maybe_parse_ecu_id_ExtOk _) (fun ecu => ?_)
  refine bindR_ExtOk (maybe_parse_u32_ExtOk _) (fun sid => ?_)
  refine bindR_ExtOk (maybe_parse_u32_ExtOk _) (fun ts => ?_)
  exact ExtOk_ite _ (err_const_ExtOk _) (pure_ExtOk _)

theorem dlt_standard_header_NoFailPre : NoFailPre dlt_standard_header := by
  unfold dlt_standard_header
  have h8 := (parseNum_neverFail 1 beVal).noFailPre
  have h16 := (parseNum_neverFail 2 beVal).noFailPre
  refine bindR_NoFailPre (parseNum_ExtOk 1 beVal) h8 (fun htb => ?_)
  refine bindR_NoFailPre (parseNum_ExtOk 1 beVal) h8 (fun cnt => ?_)
  refine bindR_NoFailPre (parseNum_ExtOk 2 beVal) h16 (fun ov => ?_)
  refine bindR_NoFailPre (maybe_parse_ecu_id_ExtOk _) (maybe_parse_ecu_id_NoFailPre _)
    (fun ecu => ?_)
  refine bindR_NoFailPre (maybe_parse_u32_ExtOk _) (maybe_parse_u32_NoFailPre _)
    (fun sid => ?_)
  refine bindR_NoFailPre (maybe_parse_u32_ExtOk _) (maybe_parse_u32_NoFailPre _)
    (fun ts => ?_)
  refine NoFailPre_ite _ ?_ (pure_NoFailPre _)
  intro xs r v h
  cases h

theorem dlt_extended_header_ExtOk : ExtOk dlt_extended_header := by
  unfold dlt_extended_header
  refine bindR_ExtOk (parseNum_ExtOk 1 beVal) (fun msin => ?_)
  refine bindR_ExtOk (parseNum_ExtOk 1 beVal) (fun noar => ?_)
  refine bindR_ExtOk (zts_ExtOk 4) (fun app => ?_)
  exact bindR_ExtOk (zts_ExtOk 4) (fun ctx => pure_ExtOk _)

theorem dlt_extended_header_NoFailPre : NoFailPre dlt_extended_header := by
  unfold dlt_extended_header
  have h8 := (parseNum_neverFail 1 beVal).noFailPre
  refine bindR_NoFailPre (parseNum_ExtOk 1 beVal) h8 (fun msin => ?_)
  refine bindR_NoFailPre (parseNum_ExtOk 1 beVal) h8 (fun noar => ?_)
  refine bindR_NoFailPre (zts_ExtOk 4) (zts_NoFailPre 4) (fun app => ?_)
  exact bindR_NoFailPre (zts_ExtOk 4) (zts_NoFailPre 4) (fun ctx => pure_NoFailPre _)

theorem dlt_type_info_ExtOk (T : Endianness) : ExtOk (dlt_type_info T) := by
  unfold dlt_type_info
  refine bindR_ExtOk (parseNum_ExtOk 4 (endVal T)) (fun info => ?_)
  cases h : TypeInfo.tryFrom info with
  | none => simp only [h]; exact err_ExtOk _
  | some ti => simp only [h]; exact pure_ExtOk _

theorem dlt_type_info_NoFailPre (T : Endianness) : NoFailPre (dlt_type_info T) := by
  unfold dlt_type_info
  refine bindR_NoFailPre (parseNum_ExtOk 4 (endVal T))
    ((parseNum_neverFail 4 (endVal T)).noFailPre) (fun info => ?_)
  cases h : TypeInfo.tryFrom info with
  | none => simp only [h]; exact err_NoFailPre _
  | some ti => simp only [h]; exact pure_NoFailPre _

theorem dlt_variable_name_ExtOk (T : Endianness) : ExtOk (dlt_variable_name T) := by
  unfold dlt_variable_name
  exact bindR_ExtOk (parseNum_ExtOk 2 (endVal T))
    (fun size => bindR_ExtOk (zts_ExtOk _) (fun name => pure_ExtOk _))

theorem dlt_variable_name_NoFailPre (T : Endianness) :
    NoFailPre (dlt_variable_name T) := by
  unfold dlt_variable_name
  exact bindR_NoFailPre (parseNum_ExtOk 2 (endVal T))
    ((parseNum_neverFail 2 (endVal T)).noFailPre)
    (fun size => bindR_NoFailPre (zts_ExtOk _) (zts_NoFailPre _)
      (fun name => pure_NoFailPre _))

theorem dlt_variable_name_and_unit_ExtOk (T : Endianness) (ti : TypeInfo) :
    ExtOk (dlt_variable_name_and_unit T ti) := by
  unfold dlt_variable_name_and_unit
  refine ExtOk_ite _ ?_ (pure_ExtOk _)
  refine bindR_ExtOk (parseNum_ExtOk 2 (endVal T)) (fun ns => ?_)
  refine bindR_ExtOk (parseNum_ExtOk 2 (endVal T)) (fun us => ?_)
  exact bindR_ExtOk (zts_ExtOk _)
    (fun name => bindR_ExtOk (zts_ExtOk _) (fun unit => pure_ExtOk _))

theorem dlt_variable_name_and_unit_NoFailPre (T : Endianness) (ti : TypeInfo) :
    NoFailPre (dlt_variable_name_and_unit T ti) := by
  unfold dlt_variable_name_and_unit
  have h16 := (parseNum_neverFail 2 (endVal T)).noFailPre
  refine NoFailPre_ite _ ?_ (pure_NoFailPre _)
  refine bindR_NoFailPre (parseNum_ExtOk 2 (endVal T)) h16 (fun ns => ?_)
  refine bindR_NoFailPre (parseNum_ExtOk 2 (endVal T)) h16 (fun us => ?_)
  exact bindR_NoFailPre (zts_ExtOk _) (zts_NoFailPre _)
    (fun name => bindR_NoFailPre (zts_ExtOk _) (zts_NoFailPre _)
      (fun unit => pure_NoFailPre _))

theorem dlt_uint_ExtOk (T : Endianness) (w : TypeLength) :
    ExtOk (dlt_uint T w) := by
  cases w <;> exact bindR_ExtOk (parseNum_ExtOk _ _) (fun v => pure_ExtOk _)

theorem dlt_uint_NoFailPre (T : Endianness) (w : TypeLength) :
    NoFailPre (dlt_uint T w) := by
  cases w <;> exact bindR_NoFailPre (parseNum_ExtOk _ _)
    ((parseNum_neverFail _ _).noFailPre) (fun v => pure_NoFailPre _)

theorem dlt_sint_ExtOk (T : Endianness) (w : TypeLength) :
    ExtOk (dlt_sint T w) := by
  cases w <;> exact bindR_ExtOk (parseNum_ExtOk _ _) (fun v => pure_ExtOk _)

theorem dlt_sint_NoFailPre (T : Endianness) (w : TypeLength) :
    NoFailPre (dlt_sint T w) := by
  cases w <;> exact bindR_NoFailPre (parseNum_ExtOk _ _)
    ((parseNum_neverFail _ _).noFailPre) (fun v => pure_NoFailPre _)

theorem dlt_fint_ExtOk (T : Endianness) (w : FloatWidth) :
    ExtOk (dlt_fint T w) := by
  cases w <;> exact bindR_ExtOk (parseNum_ExtOk _ _) (fun v => pure_ExtOk _)

theorem dlt_fint_NoFailPre (T : Endianness) (w : FloatWidth) :
    NoFailPre (dlt_fint T w) := by
  cases w <;> exact bindR_NoFailPre (parseNum_ExtOk _ _)
    ((parseNum_neverFail _ _).noFailPre) (fun v => pure_NoFailPre _)

theorem dlt_fixed_point_ExtOk (T : Endianness) (w : FloatWidth) :
    ExtOk (fun xs => dlt_fixed_point T xs w) := by
  unfold dlt_fixed_point
  refine bindR_ExtOk (parseNum_ExtOk 4 (endVal T)) (fun q => ?_)
  refine ExtOk_ite _ (bindR_ExtOk (parseNum_ExtOk 4 (endVal T)) (fun o => pure_ExtOk _)) ?_
  exact ExtOk_ite _ (bindR_ExtOk (parseNum_ExtOk 8 (endVal T)) (fun o => pure_ExtOk _))
    (err_const_ExtOk _)

theorem dlt_fixed_point_NoFailPre (T : Endianness) (w : FloatWidth) :
    NoFailPre (fun xs => dlt_fixed_point T xs w) := by
  unfold dlt_fixed_point
  refine bindR_NoFailPre (parseNum_ExtOk 4 (endVal T))
    ((parseNum_neverFail 4 (endVal T)).noFailPre) (fun q => ?_)
  refine NoFailPre_ite _ (bindR_NoFailPre (parseNum_ExtOk 4 (endVal T))
    ((parseNum_neverFail 4 (endVal T)).noFailPre) (fun o => pure_NoFailPre _)) ?_
  exact NoFailPre_ite _ (bindR_NoFailPre (parseNum_ExtOk 8 (endVal T))
    ((parseNum_neverFail 8 (endVal T)).noFailPre) (fun o => pure_NoFailPre _))
    (err_NoFailPre _)

theorem dlt_argument_ExtOk (T : Endianness) : ExtOk (dlt_argument T) := by
  unfold dlt_argument
  refine bindR_ExtOk (dlt_type_info_ExtOk T) (fun ti => ?_)
  obtain ⟨kind, coding, hvi, htr⟩ := ti
  cases kind with
  | signed w =>
    exact bindR_ExtOk (dlt_variable_name_and_unit_ExtOk T _)
      (fun nu => bindR_ExtOk (dlt_sint_ExtOk T w) (fun v => pure_ExtOk _))
  | signedFixedPoint w =>
    exact bindR_ExtOk (dlt_variable_name_and_unit_ExtOk T _)
      (fun nu => bindR_ExtOk (dlt_fixed_point_ExtOk T w)
        (fun fp => bindR_ExtOk (dlt_sint_ExtOk T _) (fun v => pure_ExtOk _)))
  | unsigned w =>
    exact bindR_ExtOk (dlt_variable_name_and_unit_ExtOk T _)
      (fun nu => bindR_ExtOk (dlt_uint_ExtOk T w) (fun v => pure_ExtOk _))
  | unsignedFixedPoint w =>
    exact bindR_ExtOk (dlt_variable_name_and_unit_ExtOk T _)
      (fun nu => bindR_ExtOk (dlt_fixed_point_ExtOk T w)
        (fun fp => bindR_ExtOk (dlt_uint_ExtOk T _) (fun v => pure_ExtOk _)))
  | float w =>
    exact bindR_ExtOk (dlt_variable_name_and_unit_ExtOk T _)
      (fun nu => bindR_ExtOk (dlt_fint_ExtOk T w) (fun v => pure_ExtOk _))
  | raw =>
    refine bindR_ExtOk (parseNum_ExtOk 2 (endVal T)) (fun cnt => ?_)
    refine bindR_ExtOk (ExtOk_ite _
      (bindR_ExtOk (dlt_variable_name_ExtOk T) (fun n => pure_ExtOk _))
      (pure_ExtOk none)) (fun name => ?_)
    exact bindR_ExtOk (takeP_ExtOk _) (fun s => pure_ExtOk _)
  | bool =>
    refine bindR_ExtOk (ExtOk_ite _
      (bindR_ExtOk (dlt_variable_name_ExtOk T) (fun n => pure_ExtOk _))
      (pure_ExtOk none)) (fun name => ?_)
    exact bindR_ExtOk (parseNum_ExtOk 1 beVal) (fun v => pure_ExtOk _)
  | stringType =>
    refine bindR_ExtOk (parseNum_ExtOk 2 (endVal T)) (fun size => ?_)
    refine bindR_ExtOk (ExtOk_ite _
      (bindR_ExtOk (dlt_variable_name_ExtOk T) (fun n => pure_ExtOk _))
      (pure_ExtOk none)) (fun name => ?_)
    exact bindR_ExtOk (zts_ExtOk _) (fun v => pure_ExtOk _)

theorem dlt_argument_NoFailPre (T : Endianness) : NoFailPre (dlt_argument T) := by
  unfold dlt_argument
  have h16 := (parseNum_neverFail 2 (endVal T)).noFailPre
  have hvarE : ∀ b : Bool, ExtOk (fun xs =>
      if b = true then (dlt_variable_name T xs).bindR (fun i3 n => IRes.ok i3 (some n))
      else IRes.ok xs none) := fun b => ExtOk_ite _
    (bindR_ExtOk (dlt_variable_name_ExtOk T) (fun n => pure_ExtOk _))
    (pure_ExtOk none)
  have hvarN : ∀ b : Bool, NoFailPre (fun xs =>
      if b = true then (dlt_variable_name T xs).bindR (fun i3 n => IRes.ok i3 (some n))
      else IRes.ok xs none) := fun b => NoFailPre_ite _
    (bindR_NoFailPre (dlt_variable_name_ExtOk T) (dlt_variable_name_NoFailPre T)
      (fun n => pure_NoFailPre _))
    (pure_NoFailPre none)
  refine bindR_NoFailPre (dlt_type_info_ExtOk T) (dlt_type_info_NoFailPre T)
    (fun ti => ?_)
  obtain ⟨kind, coding, hvi, htr⟩ := ti
  cases kind with
  | signed w =>
    exact bindR_NoFailPre (dlt_variable_name_and_unit_ExtOk T _)
      (dlt_variable_name_and_unit_NoFailPre T _)
      (fun nu => bindR_NoFailPre (dlt_sint_ExtOk T w) (dlt_sint_NoFailPre T w)
        (fun v => pure_NoFailPre _))
  | signedFixedPoint w =>
    exact bindR_NoFailPre (dlt_variable_name_and_unit_ExtOk T _)
      (dlt_variable_name_and_unit_NoFailPre T _)
      (fun nu => bindR_NoFailPre (dlt_fixed_point_ExtOk T w)
        (dlt_fixed_point_NoFailPre T w)
        (fun fp => bindR_NoFailPre (dlt_sint_ExtOk T _) (dlt_sint_NoFailPre T _)
          (fun v => pure_NoFailPre _)))
  | unsigned w =>
    exact bindR_NoFailPre (dlt_variable_name_and_unit_ExtOk T _)
      (dlt_variable_name_and_unit_NoFailPre T _)
      (fun nu => bindR_NoFailPre (dlt_uint_ExtOk T w) (dlt_uint_NoFailPre T w)
        (fun v => pure_NoFailPre _))
  | unsignedFixedPoint w =>
    exact bindR_NoFailPre (dlt_variable_name_and_unit_ExtOk T _)
      (dlt_variable_name_and_unit_NoFailPre T _)
      (fun nu => bindR_NoFailPre (dlt_fixed_point_ExtOk T w)
        (dlt_fixed_point_NoFailPre T w)
        (fun fp => bindR_NoFailPre (dlt_uint_ExtOk T _) (dlt_uint_NoFailPre T _)
          (fun v => pure_NoFailPre _)))
  | float w =>
    exact bindR_NoFailPre (dlt_variable_name_and_unit_ExtOk T _)
      (dlt_variable_name_and_unit_NoFailPre T _)
      (fun nu => bindR_NoFailPre (dlt_fint_ExtOk T w) (dlt_fint_NoFailPre T w)
        (fun v => pure_NoFailPre _))
  | raw =>
    refine bindR_NoFailPre (parseNum_ExtOk 2 (endVal T)) h16 (fun cnt => ?_)
    refine bindR_NoFailPre (hvarE _) (hvarN _) (fun name => ?_)
    exact bindR_NoFailPre (takeP_ExtOk _) ((takeP_neverFail _).noFailPre)
      (fun s => pure_NoFailPre _)
  | bool =>
    refine bindR_NoFailPre (hvarE _) (hvarN _) (fun name => ?_)
    exact bindR_NoFailPre (parseNum_ExtOk 1 beVal)
      ((parseNum_neverFail 1 beVal).noFailPre) (fun v => pure_NoFailPre _)
  | stringType =>
    refine bindR_NoFailPre (parseNum_ExtOk 2 (endVal T)) h16 (fun size => ?_)
    refine bindR_NoFailPre (hvarE _) (hvarN _) (fun name => ?_)
    exact bindR_NoFailPre (zts_ExtOk _) (zts_NoFailPre _) (fun v => pure_NoFailPre _)

/-! ## Consumption facts for the header parsers -/

theorem parseNum_consume {n : Nat} {fold : Bytes → Nat} {xs r : Bytes} {v : Nat}
    (h : parseNum n fold xs = .ok r v) :
    r = xs.drop n ∧ n ≤ xs.length ∧ v = fold (xs.take n) := by
  unfold parseNum at h
  split at h
  · cases h
  · rename_i hlen
    cases h
    exact ⟨rfl, by omega, rfl⟩

theorem takeP_consume {n : Nat} {xs r v : Bytes} (h : takeP n xs = .ok r v) :
    r = xs.drop n ∧ n ≤ xs.length ∧ v = xs.take n := by
  unfold takeP at h
  split at h
  · cases h
  · rename_i hlen
    cases h
    exact ⟨rfl, by omega, rfl⟩

theorem beU8_ok {xs r : Bytes} {v : Nat} (h : beU8 xs = .ok r v) :
    xs.get? 0 = some v ∧ r = xs.drop 1 ∧ 1 ≤ xs.length := by
  cases xs with
  | nil => simp [beU8, parseNum] at h
  | cons b t =>
    have h2 := parseNum_consume h
    obtain ⟨hr, hlen, hv⟩ := h2
    subst hr
    subst hv
    refine ⟨?_, rfl, by simp⟩
    simp [beVal]

theorem takeWhileMN0_some {n : Nat} {pred : Nat → Bool} {xs : Bytes} {i : Nat}
    (hf : firstStop pred xs = some i) :
    takeWhileMN0 n pred xs = .ok (xs.drop (min i n)) (xs.take (min i n)) := by
  unfold takeWhileMN0
  rw [hf]

theorem takeWhileMN0_none {n : Nat} {pred : Nat → Bool} {xs : Bytes}
    (hf : firstStop pred xs = none) :
    takeWhileMN0 n pred xs =
      if n ≤ xs.length then .ok (xs.drop n) (xs.take n)
      else .err (.incomplete (.size 1)) := by
  unfold takeWhileMN0
  rw [hf]

theorem zts_consume {s : Bytes} {size : Nat} {r v : Bytes}
    (h : dlt_zero_terminated_string s size = .ok r v) :
    r = s.drop size ∧ size ≤ s.length := by
  unfold dlt_zero_terminated_string at h
  cases hf : firstStop isNotNull s with
  | some i =>
    rw [takeWhileMN0_some hf] at h
    simp only [IRes.bindR] at h
    have hi : i < s.length := firstStop_lt_length hf
    have hcl : (s.take (min i size)).length = min i size := by
      rw [List.length_take]
      omega
    rw [hcl] at h
    unfold takeP at h
    by_cases hlen2 : (s.drop (min i size)).length < size - min i size
    · rw [if_pos hlen2] at h
      simp only [IRes.bindR] at h
      cases h
    · rw [if_neg hlen2] at h
      simp only [IRes.bindR] at h
      rw [List.length_drop] at hlen2
      cases h
      constructor
      · rw [List.drop_drop]
        congr 1
        omega
      · omega
  | none =>
    rw [takeWhileMN0_none hf] at h
    split at h
    · rename_i hn
      simp only [IRes.bindR] at h
      have hcl : (s.take size).length = size := by
        rw [List.length_take]
        omega
      rw [hcl, Nat.sub_self] at h
      unfold takeP at h
      rw [if_neg (by omega)] at h
      simp only [IRes.bindR] at h
      cases h
      exact ⟨by rw [List.drop_zero], hn⟩
    · cases h

theorem maybe_parse_ecu_id_consume {a : Bool} {xs r : Bytes} {v : Option Bytes}
    (h : maybe_parse_ecu_id a xs = .ok r v) :
    r = xs.drop (if a then 4 else 0) ∧ (if a then 4 else 0) ≤ xs.length ∧
      v.isSome = a := by
  unfold maybe_parse_ecu_id at h
  cases a with
  | false =>
    simp only [if_neg Bool.false_ne_true] at h ⊢
    cases h
    exact ⟨by rw [List.drop_zero], by omega, rfl⟩
  | true =>
    simp only [if_pos rfl] at h ⊢
    cases he : parse_ecu_id xs with
    | err e => rw [he] at h; cases h
    | ok r0 v0 =>
      rw [he] at h
      simp only [IRes.bindR] at h
      cases h
      obtain ⟨hr, hlen⟩ := zts_consume he
      exact ⟨hr, hlen, rfl⟩

theorem maybe_parse_u32_consume {a : Bool} {xs r : Bytes} {v : Option Nat}
    (h : maybe_parse_u32 a xs = .ok r v) :
    r = xs.drop (if a then 4 else 0) ∧ (if a then 4 else 0) ≤ xs.length ∧
      v.isSome = a := by
  unfold maybe_parse_u32 at h
  cases a with
  | false =>
    simp only [if_neg Bool.false_ne_true] at h ⊢
    cases h
    exact ⟨by rw [List.drop_zero], by omega, rfl⟩
  | true =>
    simp only [if_pos rfl] at h ⊢
    cases he : parseNum 4 beVal xs with
    | err e => rw [he] at h; cases h
    | ok r0 v0 =>
      rw [he] at h
      simp only [IRes.bindR] at h
      cases h
      obtain ⟨hr, hlen, _⟩ := parseNum_consume he
      exact ⟨hr, hlen, rfl⟩

/-- Inversion of a successful standard-header parse: the header-type byte,
the raw overall length, the relation of every header field to them, and the
exact number of bytes consumed. -/
theorem dlt_standard_header_spec {xs r : Bytes} {h : StandardHeader}
    (hp : dlt_standard_header xs = .ok r h) :
    ∃ htb ov,
      xs.get? 0 = some htb ∧
      parseNum 2 beVal (xs.drop 2) = .ok (xs.drop 4) ov ∧
      calculate_all_headers_length htb ≤ ov ∧
      h.version = (htb >>> 5) &&& 7 ∧
      h.endianness = (if htb &&& BIG_ENDIAN_FLAG != 0 then Endianness.big
        else Endianness.little) ∧
      h.has_extended_header = (htb &&& WITH_EXTENDED_HEADER_FLAG != 0) ∧
      h.payload_length = ov - calculate_all_headers_length htb ∧
      h.ecu_id.isSome = (htb &&& WITH_ECU_ID_FLAG != 0) ∧
      h.session_id.isSome = (htb &&& WITH_SESSION_ID_FLAG != 0) ∧
      h.timestamp.isSome = (htb &&& WITH_TIMESTAMP_FLAG != 0) ∧
      xs.length = r.length + 4
        + (if htb &&& WITH_ECU_ID_FLAG != 0 then 4 else 0)
        + (if htb &&& WITH_SESSION_ID_FLAG != 0 then 4 else 0)
        + (if htb &&& WITH_TIMESTAMP_FLAG != 0 then 4 else 0) := by
  unfold dlt_standard_header at hp
  cases e0 : beU8 xs with
  | err e => rw [e0] at hp; cases hp
  | ok r0 htb =>
    rw [e0] at hp
    simp only [IRes.bindR] at hp
    obtain ⟨hget0, hr0, hlen0⟩ := beU8_ok e0
    cases e1 : beU8 r0 with
    | err e => rw [e1] at hp; cases hp
    | ok r1 cnt =>
      rw [e1] at hp
      simp only [IRes.bindR] at hp
      obtain ⟨_, hr1, hlen1⟩ := beU8_ok e1
      cases e2 : beU16 r1 with
      | err e => rw [e2] at hp; cases hp
      | ok r2 ov =>
        rw [e2] at hp
        simp only [IRes.bindR] at hp
        obtain ⟨hr2, hlen2, _⟩ := parseNum_consume e2
        cases e3 : maybe_parse_ecu_id (htb &&& WITH_ECU_ID_FLAG != 0) r2 with
        | err e => rw [e3] at hp; cases hp
        | ok r3 ecu =>
          rw [e3] at hp
          simp only [IRes.bindR] at hp
          obtain ⟨hr3, hlen3, hsome3⟩ := maybe_parse_ecu_id_consume e3
          cases e4 : maybe_parse_u32 (htb &&& WITH_SESSION_ID_FLAG != 0) r3 with
          | err e => rw [e4] at hp; cases hp
          | ok r4 sid =>
            rw [e4] at hp
            simp only [IRes.bindR] at hp
            obtain ⟨hr4, hlen4, hsome4⟩ := maybe_parse_u32_consume e4
            cases e5 : maybe_parse_u32 (htb &&& WITH_TIMESTAMP_FLAG != 0) r4 with
            | err e => rw [e5] at hp; cases hp
            | ok r5 ts =>
              rw [e5] at hp
              simp only [IRes.bindR] at hp
              obtain ⟨hr5, hlen5, hsome5⟩ := maybe_parse_u32_consume e5
              split at hp
              · cases hp
              · rename_i hcheck
                cases hp
                refine ⟨htb, ov, hget0, ?_, by omega, ?_⟩
                · have hx2 : r1 = xs.drop 2 := by
                    rw [hr1, hr0, List.drop_drop]
                  rw [hr2, hx2, List.drop_drop] at e2
                  exact e2
                · refine ⟨rfl, rfl, rfl, rfl, hsome3, hsome4, hsome5, ?_⟩
                  set c3 := (if htb &&& WITH_ECU_ID_FLAG != 0 then (4 : Nat) else 0)
                    with hc3
                  set c4 := (if htb &&& WITH_SESSION_ID_FLAG != 0 then (4 : Nat) else 0)
                    with hc4
                  set c5 := (if htb &&& WITH_TIMESTAMP_FLAG != 0 then (4 : Nat) else 0)
                    with hc5
                  have l0 : xs.length = 1 + r0.length := by
                    rw [hr0, List.length_drop]; omega
                  have l1 : r0.length = 1 + r1.length := by
                    rw [hr1, List.length_drop]; omega
                  have l2 : r1.length = 2 + r2.length := by
                    rw [hr2, List.length_drop]; omega
                  have l3 : r2.length = c3 + r3.length := by
                    rw [hr3, List.length_drop]; omega
                  have l4 : r3.length = c4 + r4.length := by
                    rw [hr4, List.length_drop]; omega
                  have l5 : r4.length = c5 + r.length := by
                    rw [hr5, List.length_drop]; omega
                  omega

/-- Inversion of a successful extended-header parse: exactly 10 bytes are
consumed and the fields are decoded from them. -/
theorem dlt_extended_header_spec {xs r : Bytes} {eh : ExtendedHeader}
    (hp : dlt_extended_header xs = .ok r eh) :
    xs.length = r.length + 10 := by
  unfold dlt_extended_header at hp
  cases e0 : beU8 xs with
  | err e => rw [e0] at hp; cases hp
  | ok r0 msin =>
    rw [e0] at hp
    simp only [IRes.bindR] at hp
    obtain ⟨_, hr0, hlen0⟩ := beU8_ok e0
    cases e1 : beU8 r0 with
    | err e => rw [e1] at hp; cases hp
    | ok r1 noar =>
      rw [e1] at hp
      simp only [IRes.bindR] at hp
      obtain ⟨_, hr1, hlen1⟩ := beU8_ok e1
      cases e2 : parse_ecu_id r1 with
      | err e => rw [e2] at hp; cases hp
      | ok r2 app =>
        rw [e2] at hp
        simp only [IRes.bindR] at hp
        obtain ⟨hr2, hlen2⟩ := zts_consume e2
        cases e3 : parse_ecu_id r2 with
        | err e => rw [e3] at hp; cases hp
        | ok r3 ctx =>
          rw [e3] at hp
          simp only [IRes.bindR] at hp
          cases hp
          obtain ⟨hr3, hlen3⟩ := zts_consume e3
          have l0 : xs.length = 1 + r0.length := by rw [hr0, List.length_drop]; omega
          have l1 : r0.length = 1 + r1.length := by rw [hr1, List.length_drop]; omega
          have l2 : r1.length = 4 + r2.length := by rw [hr2, List.length_drop]; omega
          have l3 : r2.length = 4 + r.length := by rw [hr3, List.length_drop]; omega
          omega

/-! ## The reconstructed header-type byte -/

theorem and_pow_ne_zero (B i : Nat) : (B &&& 2 ^ i != 0) = B.testBit i := by
  rw [Nat.and_two_pow]
  cases h : B.testBit i <;> simp [h]

theorem low5_testBit (c v i : Nat) (hc : c < 32) (hi : i < 5) :
    (c + 32 * v).testBit i = c.testBit i := by
  have h1 : c + 32 * v = 2 ^ 5 * v + c := by ring
  rw [h1, Nat.testBit_mul_pow_two_add v (by omega : c < 2 ^ 5) i, if_pos hi]

theorem flagsum_testBit (b1 b2 b3 b4 b5 : Bool) :
    ((cond b1 1 0) + (cond b2 2 0) + (cond b3 4 0) + (cond b4 8 0)
      + (cond b5 16 0)).testBit 0 = b1 ∧
    ((cond b1 1 0) + (cond b2 2 0) + (cond b3 4 0) + (cond b4 8 0)
      + (cond b5 16 0)).testBit 2 = b3 ∧
    ((cond b1 1 0) + (cond b2 2 0) + (cond b3 4 0) + (cond b4 8 0)
      + (cond b5 16 0)).testBit 3 = b4 ∧
    ((cond b1 1 0) + (cond b2 2 0) + (cond b3 4 0) + (cond b4 8 0)
      + (cond b5 16 0)).testBit 4 = b5 ∧
    (cond b1 1 0) + (cond b2 2 0) + (cond b3 4 0) + (cond b4 8 0)
      + (cond b5 16 0) < 32 := by
  cases b1 <;> cases b2 <;> cases b3 <;> cases b4 <;> cases b5 <;> decide

/-- The headers length computed from the reconstructed header-type byte is
exactly what the header's own fields dictate: the 4-byte minimum, 4 bytes
per present optional field, 10 for a flagged extended header. -/
theorem calc_header_type_byte (h : StandardHeader) :
    calculate_all_headers_length h.header_type_byte =
      4 + (cond h.ecu_id.isSome 4 0) + (cond h.session_id.isSome 4 0)
        + (cond h.timestamp.isSome 4 0) + (cond h.has_extended_header 10 0) := by
  obtain ⟨ht0, ht2, ht3, ht4, hlt⟩ := flagsum_testBit h.has_extended_header
    (decide (h.endianness = .big)) h.ecu_id.isSome h.session_id.isSome
    h.timestamp.isSome
  have hdecomp : h.header_type_byte =
      (cond h.has_extended_header 1 0) + (cond (decide (h.endianness = .big)) 2 0)
        + (cond h.ecu_id.isSome 4 0) + (cond h.session_id.isSome 8 0)
        + (cond h.timestamp.isSome 16 0) + h.version * 32 := by
    unfold StandardHeader.header_type_byte
    simp only [WITH_EXTENDED_HEADER_FLAG, BIG_ENDIAN_FLAG, WITH_ECU_ID_FLAG,
      WITH_SESSION_ID_FLAG, WITH_TIMESTAMP_FLAG, Bool.cond_eq_ite,
      decide_eq_true_eq]
  rw [hdecomp]
  set C := (cond h.has_extended_header 1 0) + (cond (decide (h.endianness = .big)) 2 0)
    + (cond h.ecu_id.isSome 4 0) + (cond h.session_id.isSome 8 0)
    + (cond h.timestamp.isSome 16 0) with hC
  rw [Nat.mul_comm h.version 32]
  unfold calculate_all_headers_length
  have e1 : ((C + 32 * h.version) &&& WITH_EXTENDED_HEADER_FLAG != 0) =
      h.has_extended_header := by
    rw [show WITH_EXTENDED_HEADER_FLAG = 2 ^ 0 from rfl, and_pow_ne_zero,
      low5_testBit _ _ _ hlt (by omega), ht0]
  have e2 : ((C + 32 * h.version) &&& WITH_ECU_ID_FLAG != 0) = h.ecu_id.isSome := by
    rw [show WITH_ECU_ID_FLAG = 2 ^ 2 from rfl, and_pow_ne_zero,
      low5_testBit _ _ _ hlt (by omega), ht2]
  have e3 : ((C + 32 * h.version) &&& WITH_SESSION_ID_FLAG != 0) =
      h.session_id.isSome := by
    rw [show WITH_SESSION_ID_FLAG = 2 ^ 3 from rfl, and_pow_ne_zero,
      low5_testBit _ _ _ hlt (by omega), ht3]
  have e4 : ((C + 32 * h.version) &&& WITH_TIMESTAMP_FLAG != 0) =
      h.timestamp.isSome := by
    rw [show WITH_TIMESTAMP_FLAG = 2 ^ 4 from rfl, and_pow_ne_zero,
      low5_testBit _ _ _ hlt (by omega), ht4]
  rw [e1, e2, e3, e4]
  simp only [Bool.cond_eq_ite]

/-! ## Storage-header inversion and byte bounds -/

theorem tagP_consume {t xs r v : Bytes} (h : tagP t xs = .ok r v) :
    r = xs.drop t.length ∧ t.length ≤ xs.length ∧ v = t := by
  unfold tagP at h
  split at h
  · rename_i hpre
    cases h
    rw [List.isPrefixOf_iff_prefix] at hpre
    exact ⟨rfl, hpre.length_le, rfl⟩
  · split at h <;> cases h

theorem findPattern_isPrefix {xs : Bytes} {p : Nat} (h : findPattern xs = some p) :
    DLT_PATTERN.isPrefixOf (xs.drop p) = true ∧ p + 4 ≤ xs.length := by
  induction xs generalizing p with
  | nil => simp [findPattern] at h
  | cons b t ih =>
    unfold findPattern at h
    split at h
    · rename_i hpre
      cases h
      refine ⟨hpre, ?_⟩
      rw [List.isPrefixOf_iff_prefix] at hpre
      have h1 := hpre.length_le
      rw [show DLT_PATTERN.length = 4 from rfl] at h1
      simp only [List.length_cons] at h1 ⊢
      omega
    · cases ht : findPattern t with
      | none => rw [ht] at h; cases h
      | some q =>
        rw [ht, Option.map_some'] at h
        cases h
        obtain ⟨hq1, hq2⟩ := ih ht
        refine ⟨?_, by simp; omega⟩
        rw [List.drop_succ_cons]
        exact hq1

theorem dlt_storage_header_spec {xs r : Bytes} {v : Option (StorageHeader × Nat)}
    (hp : dlt_storage_header xs = .ok r v) :
    (v = none ∧ r = []) ∨
    (∃ sh p, v = some (sh, p) ∧ findPattern xs = some p ∧ p + 16 ≤ xs.length ∧
      r = xs.drop (p + 16)) := by
  unfold dlt_storage_header forward_to_next_storage_header at hp
  split at hp
  · cases hp
  · rename_i hlen16
    cases hf : findPattern xs with
    | none =>
      rw [hf] at hp
      simp only [Option.map_none'] at hp
      cases hp
      exact Or.inl ⟨rfl, rfl⟩
    | some p =>
      rw [hf] at hp
      simp only [Option.map_some'] at hp
      cases e0 : tagP [0x44, 0x4C, 0x54] (xs.drop p) with
      | err e => rw [e0] at hp; cases hp
      | ok r0 t0 =>
        rw [e0] at hp
        simp only [IRes.bindR] at hp
        obtain ⟨hr0, hlen0, _⟩ := tagP_consume e0
        cases e1 : tagP [0x01] r0 with
        | err e => rw [e1] at hp; cases hp
        | ok r1 t1 =>
          rw [e1] at hp
          simp only [IRes.bindR] at hp
          obtain ⟨hr1, hlen1, _⟩ := tagP_consume e1
          cases e2 : leU32 r1 with
          | err e => rw [e2] at hp; cases hp
          | ok r2 sec =>
            rw [e2] at hp
            simp only [IRes.bindR] at hp
            obtain ⟨hr2, hlen2, _⟩ := parseNum_consume e2
            cases e3 : leU32 r2 with
            | err e => rw [e3] at hp; cases hp
            | ok r3 micro =>
              rw [e3] at hp
              simp only [IRes.bindR] at hp
              obtain ⟨hr3, hlen3, _⟩ := parseNum_consume e3
              cases e4 : dlt_zero_terminated_string r3 4 with
              | err e => rw [e4] at hp; cases hp
              | ok r4 ecu =>
                rw [e4] at hp
                simp only [IRes.bindR] at hp
                obtain ⟨hr4, hlen4⟩ := zts_consume e4
                cases hp
                obtain ⟨-, hp4⟩ := findPattern_isPrefix hf
                refine Or.inr ⟨_, p, rfl, rfl, ?_, ?_⟩
                · have h3 : ([0x44, 0x4C, 0x54] : Bytes).length = 3 := rfl
                  have h1 : ([0x01] : Bytes).length = 1 := rfl
                  rw [h3] at hr0 hlen0
                  rw [h1] at hr1 hlen1
                  rw [List.length_drop] at hlen0
                  have l0 : r0.length = xs.length - p - 3 := by
                    rw [hr0]
                    simp only [List.length_drop]
                  have l1 : r0.length = 1 + r1.length := by
                    rw [hr1, List.length_drop]; omega
                  have l2 : r1.length = 4 + r2.length := by
                    rw [hr2, List.length_drop]; omega
                  have l3 : r2.length = 4 + r3.length := by
                    rw [hr3, List.length_drop]; omega
                  have l4 : r3.length = 4 + r.length := by
                    rw [hr4, List.length_drop]; omega
                  omega
                · have h3 : ([0x44, 0x4C, 0x54] : Bytes).length = 3 := rfl
                  have h1 : ([0x01] : Bytes).length = 1 := rfl
                  rw [h3] at hr0
                  rw [h1] at hr1
                  rw [hr4, hr3, hr2, hr1, hr0]
                  simp only [List.drop_drop]

theorem bytesOk_suffix {xs : Bytes} (h : bytesOk xs) (n : Nat) : bytesOk (xs.drop n) :=
  fun b hb => h b (List.mem_of_mem_drop hb)

theorem bytesOk_take {xs : Bytes} (h : bytesOk xs) (n : Nat) : bytesOk (xs.take n) :=
  fun b hb => h b (List.mem_of_mem_take hb)

theorem beVal_two_lt {l : Bytes} (h2 : l.length = 2) (hb : ∀ b ∈ l, b < 256) :
    beVal l < 65536 := by
  match l, h2 with
  | [a, b], _ =>
    have ha : a < 256 := hb a (by simp)
    have hbb : b < 256 := hb b (by simp)
    simp only [beVal, List.length_cons, List.length_nil]
    have : (256 : Nat) ^ 1 = 256 := by norm_num
    simp only [List.length_nil, pow_zero, Nat.mul_one, Nat.add_zero, List.length_cons,
      pow_one]
    omega

/-- Under byte-valued input, a parsed standard header's `overall_length()`
recomputes exactly the raw 16-bit length field, and the headers length of
the reconstructed header-type byte equals that of the original byte. -/
theorem std_header_overall {as r : Bytes} {h : StandardHeader}
    (hstd : dlt_standard_header as = .ok r h) (hbytes : bytesOk as) :
    ∃ htb ov,
      as.get? 0 = some htb ∧
      h.overall_length = ov ∧
      calculate_all_headers_length h.header_type_byte =
        calculate_all_headers_length htb ∧
      calculate_all_headers_length htb ≤ ov ∧
      h.payload_length = ov - calculate_all_headers_length htb ∧
      ov = beVal ((as.drop 2).take 2) ∧ ov < 65536 := by
  obtain ⟨htb, ov, hget0, hparse, hle, hver, hend, hext, hpay, hecu, hsid, hts, hlen⟩ :=
    dlt_standard_header_spec hstd
  obtain ⟨hr2, hlen2, hv2⟩ := parseNum_consume hparse
  have hovlt : ov < 65536 := by
    rw [hv2]
    refine beVal_two_lt ?_ ?_
    · rw [List.length_take, List.length_drop]
      omega
    · exact fun b hb => bytesOk_take (bytesOk_suffix hbytes 2) 2 b hb
  have hcalc : calculate_all_headers_length h.header_type_byte =
      calculate_all_headers_length htb := by
    rw [calc_header_type_byte, hecu, hsid, hts, hext]
    unfold calculate_all_headers_length
    simp only [Bool.cond_eq_ite]
  refine ⟨htb, ov, hget0, ?_, hcalc, hle, hpay, hv2, hovlt⟩
  unfold StandardHeader.overall_length
  rw [hcalc, hpay, Nat.add_sub_cancel' hle, Nat.mod_eq_of_lt hovlt]

/-- Under byte-valued input, `validated_payload_length` of a freshly parsed
standard header never takes the `ParsingHickup` branch: it returns either
the payload length or `IncompleteParse`. -/
theorem validated_shape {as r : Bytes} {h : StandardHeader}
    (hstd : dlt_standard_header as = .ok r h) (hbytes : bytesOk as) (rem : Nat) :
    validated_payload_length h rem = .ok h.payload_length ∨
    (∃ n, validated_payload_length h rem = .error (.incompleteParse n)) := by
  obtain ⟨htb, ov, _, hov, hcalc, hle, hpay, _, _⟩ := std_header_overall hstd hbytes
  unfold validated_payload_length
  rw [if_neg (by omega)]
  by_cases hrem : rem < h.overall_length
  · rw [if_pos hrem]
    exact Or.inr ⟨_, rfl⟩
  · rw [if_neg hrem]
    rw [hov, hcalc, hpay]
    exact Or.inl rfl

/-! ## Claim C9: the decoder never returns `Ok(Invalid)` -/

/-- On byte-valued input, the post-storage decoding block never produces
`ParsedMessage::Invalid`: the hickup branch of `validated_payload_length`
is unreachable after a successful `dlt_standard_header`. -/
theorem body_not_invalid {as : Bytes} {sh : Option StorageHeader}
    {cfg : Option ProcessedDltFilterConfig} {r : Bytes} (hbytes : bytesOk as)
    (h : dlt_message_body as sh cfg = .ok r .invalid) : False := by
  simp only [dlt_message_body, bodyTail, bodyPayload, dlt_ext_step] at h
  split at h
  · cases h
  · rename_i r0 header hstd
    rcases validated_shape hstd hbytes as.length with hok | ⟨n, herr⟩
    · simp only [hok] at h
      repeat' split at h
      all_goals cases h
    · simp only [herr] at h
      repeat' split at h
      all_goals cases h

/-- C9: for every byte-valued input, filter configuration, and
with-storage-header flag, `dlt_message` never returns `Ok` with
`ParsedMessage::Invalid`: the only condition routing to `Invalid`
(`overall_length` below the all-headers length in
`validated_payload_length`) is already rejected by the identical check
inside `dlt_standard_header`, which aborts with a `ParsingHickup` first. -/
theorem C9_no_invalid (input : Bytes)
    (cfg : Option ProcessedDltFilterConfig) (ws : Bool)
    (hbytes : bytesOk input) :
    isInvalidResult (dlt_message input cfg ws) = false := by
  rw [dlt_message]
  cases hi : dlt_message_intern input cfg ws with
  | err e => rfl
  | ok rest pm =>
    cases pm with
    | item m => rfl
    | filteredOut n => rfl
    | invalid =>
      exfalso
      rw [dlt_message_intern] at hi
      cases hsto : (if ws then dlt_storage_header input else .ok input none) with
      | err e => rw [hsto] at hi; cases hi
      | ok af v =>
        rw [hsto] at hi
        have haf : bytesOk af := by
          cases ws with
          | false =>
            simp only [if_neg Bool.false_ne_true] at hsto
            cases hsto
            exact hbytes
          | true =>
            simp only [if_pos rfl] at hsto
            rcases dlt_storage_header_spec hsto with ⟨-, hr⟩ | ⟨shh, p, -, -, -, hr⟩
            · subst hr
              intro b hb
              cases hb
            · subst hr
              exact bytesOk_suffix hbytes _
        exact body_not_invalid haf hi

theorem C9_no_invalid_witness :
    bytesOk scenarioOneMessage ∧
    isInvalidResult (dlt_message scenarioOneMessage none true) = false :=
  ⟨by unfold bytesOk; decide,
   C9_no_invalid scenarioOneMessage none true (by unfold bytesOk; decide)⟩

/-! ## Claim C2: resync consumption -/

/-- The decoder returned `Ok`. -/
def exceptIsOk {α : Type} : Except DltParseError α → Bool
  | .ok _ => true
  | .error _ => false

/-- Reattach a storage header to a decoded body result; `dlt_message_body`
threads its storage-header argument only into a decoded `Item`. -/
def withStorage (sh : Option StorageHeader) :
    IRes ParsedMessage → IRes ParsedMessage
  | .ok r (.item m) => .ok r (.item { m with storage_header := sh })
  | x => x

/-- The storage-header argument of `dlt_message_body` only decorates the
result: the body with storage header `sh` is the body with no storage
header, with `sh` substituted into a decoded `Item`. -/
theorem body_storage (as : Bytes) (cfg : Option ProcessedDltFilterConfig)
    (sh : Option StorageHeader) :
    dlt_message_body as sh cfg = withStorage sh (dlt_message_body as none cfg) := by
  simp only [dlt_message_body, bodyTail, bodyPayload, dlt_ext_step]
  repeat' split
  all_goals rfl

theorem dlt_message_ok_iff {input : Bytes}
    {cfg : Option ProcessedDltFilterConfig} {ws : Bool} :
    exceptIsOk (dlt_message input cfg ws) = true ↔
    ∃ r pm, dlt_message_intern input cfg ws = .ok r pm := by
  rw [dlt_message]
  cases hi : dlt_message_intern input cfg ws with
  | err e =>
    refine iff_of_false (by simp [exceptIsOk]) ?_
    rintro ⟨r, pm, h⟩
    cases h
  | ok r pm => exact iff_of_true rfl ⟨r, pm, rfl⟩

/-- `dlt_zero_terminated_string` succeeds on any input of at least `size`
bytes, consuming exactly `size` bytes. -/
theorem zts_total {s : Bytes} {size : Nat} (h : size ≤ s.length) :
    ∃ v, dlt_zero_terminated_string s size = .ok (s.drop size) v := by
  unfold dlt_zero_terminated_string takeWhileMN0
  cases hf : firstStop isNotNull s with
  | some i =>
    have hi : i < s.length := firstStop_lt_length hf
    have hmin : (s.take (min i size)).length = min i size := by
      rw [List.length_take]
      omega
    refine ⟨utf8Valid (s.take (min i size)), ?_⟩
    simp only [IRes.bindR, hmin, takeP, List.length_drop]
    rw [if_neg (by omega)]
    simp only [IRes.bindR, List.drop_drop]
    rw [show min i size + (size - min i size) = size from by omega]
  | none =>
    have hc : (s.take size).length = size := by
      rw [List.length_take]
      omega
    refine ⟨utf8Valid (s.take size), ?_⟩
    rw [if_pos h]
    simp only [IRes.bindR, hc, takeP, List.length_drop]
    rw [if_neg (by omega)]
    simp only [IRes.bindR, List.drop_drop]
    rw [show size + (size - size) = size from by omega]

theorem u16sub_eq {a b : Nat} (h1 : b ≤ a) (h2 : a - b < 65536) :
    u16sub a b = a - b := by
  unfold u16sub
  omega

theorem parseNum_short {n : Nat} {fold : Bytes → Nat} {xs : Bytes}
    (h : xs.length < n) :
    parseNum n fold xs = .err (.incomplete (.size (n - xs.length))) := by
  rw [parseNum, if_pos h]

theorem takeP_short {n : Nat} {xs : Bytes} (h : xs.length < n) :
    takeP n xs = .err (.incomplete (.size (n - xs.length))) := by
  rw [takeP, if_pos h]

/-- `dlt_zero_terminated_string` on an input shorter than `size` asks for
more input. -/
theorem zts_short {s : Bytes} {size : Nat} (h : s.length < size) :
    ∃ n, dlt_zero_terminated_string s size = .err (.incomplete n) := by
  unfold dlt_zero_terminated_string
  cases hf : firstStop isNotNull s with
  | some i =>
    have hi : i < s.length := firstStop_lt_length hf
    rw [takeWhileMN0_some hf]
    simp only [IRes.bindR]
    have hmin : min i size = i := by omega
    rw [hmin]
    have hcl : (s.take i).length = i := by
      rw [List.length_take]
      omega
    rw [hcl, takeP, if_pos (by rw [List.length_drop]; omega)]
    exact ⟨_, rfl⟩
  | none =>
    rw [takeWhileMN0_none hf, if_neg (by omega)]
    exact ⟨_, rfl⟩

/-- The tail of `dlt_storage_header` after the pattern scan: the two tags,
the two timestamp words and the ECU id, with `p` the scan offset it
reports. -/
def storageTail (p : Nat) (rest : Bytes) : IRes (Option (StorageHeader × Nat)) :=
  (tagP [0x44, 0x4C, 0x54] rest).bindR fun r1 _ =>
    (tagP [0x01] r1).bindR fun r2 _ =>
      (leU32 r2).bindR fun r3 seconds =>
        (leU32 r3).bindR fun afterTime microseconds =>
          (dlt_zero_terminated_string afterTime 4).bindR fun afterString ecuId =>
            .ok afterString
              (some ({ timestamp := { seconds, microseconds },
                       ecu_id := ecuId }, p))

/-- Unfolding of `dlt_storage_header` once the pattern scan has fired. -/
theorem dlt_storage_header_fw {input rest : Bytes} {p : Nat}
    (hlen : ¬ input.length < STORAGE_HEADER_LENGTH)
    (hf : forward_to_next_storage_header input = some (p, rest)) :
    dlt_storage_header input = storageTail p rest := by
  rw [dlt_storage_header, if_neg hlen, hf]
  rfl

/-- A pattern prefix puts the first pattern occurrence at index 0. -/
theorem findPattern_pattern_prefix {v : Bytes}
    (hv : DLT_PATTERN.isPrefixOf v = true) : findPattern v = some 0 := by
  cases v with
  | nil => simp [DLT_PATTERN, List.isPrefixOf] at hv
  | cons b t =>
    unfold findPattern
    rw [if_pos hv]

/-- The storage-header tail parser on an input that starts with the
pattern and has at least 16 bytes: it consumes exactly 16 bytes. -/
theorem storageTail_pattern {y : Bytes} (p : Nat)
    (hv : DLT_PATTERN.isPrefixOf y = true) (h16 : 16 ≤ y.length) :
    ∃ sh, storageTail p y = .ok (y.drop 16) (some (sh, p)) := by
  obtain ⟨w, hw⟩ := List.isPrefixOf_iff_prefix.1 hv
  subst hw
  have hw12 : 12 ≤ w.length := by
    simp [DLT_PATTERN] at h16
    omega
  have ht3 : tagP [0x44, 0x4C, 0x54] (DLT_PATTERN ++ w) =
      .ok (0x01 :: w) [0x44, 0x4C, 0x54] := by
    simp [tagP, DLT_PATTERN, List.isPrefixOf]
  have ht1 : tagP [0x01] (0x01 :: w) = .ok w [0x01] := by
    simp [tagP, List.isPrefixOf]
  have hle1 : leU32 w = .ok (w.drop 4) (leVal (w.take 4)) := by
    rw [leU32, parseNum, if_neg (by omega)]
  have hle2 : leU32 (w.drop 4) =
      .ok ((w.drop 4).drop 4) (leVal ((w.drop 4).take 4)) := by
    rw [leU32, parseNum, if_neg (by simp only [List.length_drop]; omega)]
  obtain ⟨ecu, hz⟩ := zts_total
    (show (4 : Nat) ≤ ((w.drop 4).drop 4).length by
      simp only [List.length_drop]
      omega)
  refine ⟨{ timestamp := { seconds := leVal (w.take 4),
                           microseconds := leVal ((w.drop 4).take 4) },
            ecu_id := ecu }, ?_⟩
  unfold storageTail
  rw [ht3]
  simp only [IRes.bindR]
  rw [ht1]
  simp only [IRes.bindR]
  rw [hle1]
  simp only [IRes.bindR]
  rw [hle2]
  simp only [IRes.bindR]
  rw [hz]
  simp only [IRes.bindR]
  rw [show ((DLT_PATTERN ++ w).drop 16 : Bytes) = w.drop 12 from rfl]
  rw [show (((w.drop 4).drop 4).drop 4 : Bytes) = w.drop 12 from by
    simp [List.drop_drop]]

/-- The storage-header tail parser on a pattern-prefixed input that is
shorter than 16 bytes asks for more input. -/
theorem storageTail_pattern_short {y : Bytes} (p : Nat)
    (hv : DLT_PATTERN.isPrefixOf y = true) (hlt : y.length < 16) :
    ∃ n, storageTail p y = .err (.incomplete n) := by
  obtain ⟨w, hw⟩ := List.isPrefixOf_iff_prefix.1 hv
  subst hw
  have hwlt : w.length < 12 := by
    simp [DLT_PATTERN] at hlt
    omega
  have ht3 : tagP [0x44, 0x4C, 0x54] (DLT_PATTERN ++ w) =
      .ok (0x01 :: w) [0x44, 0x4C, 0x54] := by
    simp [tagP, DLT_PATTERN, List.isPrefixOf]
  have ht1 : tagP [0x01] (0x01 :: w) = .ok w [0x01] := by
    simp [tagP, List.isPrefixOf]
  unfold storageTail
  rw [ht3]
  simp only [IRes.bindR]
  rw [ht1]
  simp only [IRes.bindR]
  by_cases h4 : w.length < 4
  · rw [leU32, parseNum_short h4]
    exact ⟨_, rfl⟩
  · rw [leU32, parseNum, if_neg h4]
    simp only [IRes.bindR]
    by_cases h8 : w.length < 8
    · rw [leU32, parseNum_short (by
        simp only [List.length_drop]
        omega)]
      exact ⟨_, rfl⟩
    · rw [leU32, parseNum, if_neg (by
        simp only [List.length_drop]
        omega)]
      simp only [IRes.bindR]
      obtain ⟨n, hzs⟩ := zts_short
        (show ((w.drop 4).drop 4).length < 4 by
          simp only [List.length_drop]
          omega)
      rw [hzs]
      exact ⟨n, rfl⟩

/-- On an input that starts with the storage pattern and has at least 16
bytes, `dlt_storage_header` consumes exactly the 16-byte storage header
and reports 0 skipped bytes. -/
theorem dlt_storage_header_pattern {v : Bytes}
    (hv : DLT_PATTERN.isPrefixOf v = true) (h16 : 16 ≤ v.length) :
    ∃ sh, dlt_storage_header v = .ok (v.drop 16) (some (sh, 0)) := by
  have hfw : forward_to_next_storage_header v = some (0, v) := by
    rw [forward_to_next_storage_header, findPattern_pattern_prefix hv]
    rfl
  obtain ⟨sh, hst⟩ := storageTail_pattern 0 hv h16
  refine ⟨sh, ?_⟩
  rw [dlt_storage_header_fw (by simp [STORAGE_HEADER_LENGTH]; omega) hfw, hst]

/-- On an input that starts with the storage pattern and has at least 16
bytes, `skip_storage_header` consumes exactly 16 bytes and reports 16. -/
theorem skip_storage_header_pattern {v : Bytes}
    (hv : DLT_PATTERN.isPrefixOf v = true) (h16 : 16 ≤ v.length) :
    skip_storage_header v = .ok (v.drop 16) 16 := by
  obtain ⟨w, hw⟩ := List.isPrefixOf_iff_prefix.1 hv
  subst hw
  have hw12 : 12 ≤ w.length := by
    simp [DLT_PATTERN] at h16
    omega
  have ht3 : tagP [0x44, 0x4C, 0x54] (DLT_PATTERN ++ w) =
      .ok (0x01 :: w) [0x44, 0x4C, 0x54] := by
    simp [tagP, DLT_PATTERN, List.isPrefixOf]
  have ht1 : tagP [0x01] (0x01 :: w) = .ok w [0x01] := by
    simp [tagP, List.isPrefixOf]
  rw [skip_storage_header, ht3]
  simp only [IRes.bindR]
  rw [ht1]
  simp only [IRes.bindR]
  rw [takeP, if_neg (by omega)]
  simp only [IRes.bindR]
  rw [if_pos (by
    simp [DLT_PATTERN, STORAGE_HEADER_LENGTH, List.length_drop]
    omega)]
  rw [show ((DLT_PATTERN ++ w).drop 16 : Bytes) = w.drop 12 from rfl]
  rfl

/-- When `v` starts with the storage pattern and the pattern occurs
nowhere in `g`, the first pattern occurrence in `g ++ v` is exactly at
index `g.length`: the pattern cannot straddle the boundary because none of
its proper suffixes equals the corresponding prefix. -/
theorem findPattern_append_pattern {v : Bytes} (g : Bytes)
    (hv : DLT_PATTERN.isPrefixOf v = true)
    (hg : ∀ i < g.length, DLT_PATTERN.isPrefixOf (g.drop i) = false) :
    findPattern (g ++ v) = some g.length := by
  induction g with
  | nil =>
    cases v with
    | nil => simp [DLT_PATTERN, List.isPrefixOf] at hv
    | cons b t =>
      rw [List.nil_append]
      unfold findPattern
      rw [if_pos hv]
      rfl
  | cons b t ih =>
    have hnp : DLT_PATTERN.isPrefixOf (b :: (t ++ v)) = false := by
      by_contra hc
      rw [Bool.not_eq_false] at hc
      obtain ⟨z, hz⟩ := List.isPrefixOf_iff_prefix.1 hc
      rw [show DLT_PATTERN = [0x44, 0x4C, 0x54, 0x01] from rfl] at hz
      simp only [List.cons_append, List.nil_append] at hz
      cases t with
      | nil =>
        simp only [List.nil_append] at hz
        injection hz with h1 h2
        subst h2
        simp [DLT_PATTERN, List.isPrefixOf] at hv
      | cons c t' =>
        cases t' with
        | nil =>
          simp only [List.cons_append, List.nil_append] at hz
          injection hz with h1 h2
          injection h2 with h2 h3
          subst h3
          simp [DLT_PATTERN, List.isPrefixOf] at hv
        | cons d t'' =>
          cases t'' with
          | nil =>
            simp only [List.cons_append, List.nil_append] at hz
            injection hz with h1 h2
            injection h2 with h2 h3
            injection h3 with h3 h4
            subst h4
            simp [DLT_PATTERN, List.isPrefixOf] at hv
          | cons e t3 =>
            simp only [List.cons_append] at hz
            injection hz with h1 h2
            injection h2 with h2 h3
            injection h3 with h3 h4
            injection h4 with h4 h5
            have h0 := hg 0 (by simp)
            subst h1
            subst h2
            subst h3
            subst h4
            simp [DLT_PATTERN, List.isPrefixOf] at h0
    have hg' : ∀ i < t.length, DLT_PATTERN.isPrefixOf (t.drop i) = false := by
      intro i hi
      have hgi := hg (i + 1) (by simp only [List.length_cons]; omega)
      simpa using hgi
    rw [List.cons_append]
    unfold findPattern
    rw [hnp, if_neg Bool.false_ne_true, ih hg']
    simp

/-- C2 (amended): for `garbage ++ valid_message` inputs — the message
begins with the storage pattern and decodes with a storage header, the
garbage contains no pattern occurrence — the resync primitive
`skip_till_after_next_storage_header` succeeds and reports exactly
`garbage.len() + 16` bytes consumed (the 16-byte storage header is skipped
as well, unlike the claimed `garbage.len()`); the returned remainder
starts at the standard header and decoding it without a storage header
succeeds. -/
theorem C2_resync_consumption {g v : Bytes}
    (hv : DLT_PATTERN.isPrefixOf v = true)
    (hg : ∀ i < g.length, DLT_PATTERN.isPrefixOf (g.drop i) = false)
    (hdec : exceptIsOk (dlt_message v none true) = true) :
    skip_till_after_next_storage_header (g ++ v) =
      .ok (v.drop 16, g.length + 16) ∧
    exceptIsOk (dlt_message (v.drop 16) none false) = true := by
  have h16 : 16 ≤ v.length := by
    by_contra hlt
    push_neg at hlt
    rw [dlt_message, dlt_message_intern, if_pos rfl, dlt_storage_header] at hdec
    rw [if_pos (by simpa [STORAGE_HEADER_LENGTH] using hlt)] at hdec
    exact Bool.noConfusion hdec
  obtain ⟨sh0, hsto⟩ := dlt_storage_header_pattern hv h16
  have hio : dlt_message_intern v none true =
      dlt_message_body (v.drop 16) (some sh0) none := by
    rw [dlt_message_intern, if_pos rfl, hsto]
    rfl
  obtain ⟨r0, pm0, hb⟩ := dlt_message_ok_iff.1 hdec
  rw [hio] at hb
  have hnone : ∃ pm1, dlt_message_body (v.drop 16) none none = .ok r0 pm1 := by
    rw [body_storage] at hb
    cases hbn : dlt_message_body (v.drop 16) none none with
    | err e =>
      rw [hbn] at hb
      cases hb
    | ok r pm =>
      rw [hbn] at hb
      cases pm <;> (cases hb; exact ⟨_, rfl⟩)
  constructor
  · have hfp := findPattern_append_pattern g hv hg
    unfold skip_till_after_next_storage_header forward_to_next_storage_header
    rw [hfp]
    simp only [Option.map_some']
    rw [List.drop_left, skip_storage_header_pattern hv h16]
  · obtain ⟨pm1, hb1⟩ := hnone
    refine dlt_message_ok_iff.2 ⟨r0, pm1, ?_⟩
    rw [dlt_message_intern, if_neg Bool.false_ne_true]
    exact hb1

theorem C2_resync_consumption_witness :
    DLT_PATTERN.isPrefixOf storedNonVerbose = true ∧
    (∀ i < ([0, 1, 2] : Bytes).length,
      DLT_PATTERN.isPrefixOf (([0, 1, 2] : Bytes).drop i) = false) ∧
    exceptIsOk (dlt_message storedNonVerbose none true) = true ∧
    skip_till_after_next_storage_header (([0, 1, 2] : Bytes) ++ storedNonVerbose) =
      .ok (storedNonVerbose.drop 16, ([0, 1, 2] : Bytes).length + 16) ∧
    exceptIsOk (dlt_message (storedNonVerbose.drop 16) none false) = true :=
  ⟨by decide, by decide, by decide,
   (C2_resync_consumption (g := [0, 1, 2]) (v := storedNonVerbose)
     (by decide) (by decide) (by decide)).1,
   (C2_resync_consumption (g := [0, 1, 2]) (v := storedNonVerbose)
     (by decide) (by decide) (by decide)).2⟩

/-! ## Claim C1: incomplete monotonicity -/

theorem dlt_standard_header_nil :
    dlt_standard_header [] = .err (.incomplete (.size 1)) := by
  decide

/-- The decoder body on an empty input asks for more input. -/
theorem body_nil (sh : Option StorageHeader)
    (cfg : Option ProcessedDltFilterConfig) :
    dlt_message_body [] sh cfg = .err (.incomplete (.size 1)) := by
  rw [dlt_message_body, dlt_standard_header_nil]

theorem findPattern_short {ys : Bytes} (h : ys.length < 4) :
    findPattern ys = none := by
  induction ys with
  | nil => rfl
  | cons b t ih =>
    unfold findPattern
    have hc : ¬ DLT_PATTERN.isPrefixOf (b :: t) = true := by
      intro hcc
      have hl := (List.isPrefixOf_iff_prefix.1 hcc).length_le
      rw [show DLT_PATTERN.length = 4 from rfl] at hl
      omega
    rw [if_neg hc, ih (by simp only [List.length_cons] at h; omega)]
    rfl

theorem isPrefixOf_take {t l : Bytes} {k : Nat} (h : t.isPrefixOf l = true)
    (hk : t.length ≤ k) : t.isPrefixOf (l.take k) = true := by
  rw [List.isPrefixOf_iff_prefix] at h ⊢
  exact List.prefix_take_iff.2 ⟨h, hk⟩

theorem isPrefixOf_of_take {t l : Bytes} {k : Nat}
    (h : t.isPrefixOf (l.take k) = true) : t.isPrefixOf l = true := by
  rw [List.isPrefixOf_iff_prefix] at h ⊢
  exact (List.prefix_take_iff.1 h).1

/-- Truncating below the first pattern occurrence loses it; truncating at
or beyond it (plus the pattern) keeps it first. -/
theorem findPattern_take {xs : Bytes} {p : Nat} (h : findPattern xs = some p) :
    ∀ k, findPattern (xs.take k) = if p + 4 ≤ k then some p else none := by
  induction xs generalizing p with
  | nil => simp [findPattern] at h
  | cons b t ih =>
    intro k
    unfold findPattern at h
    by_cases hpre : DLT_PATTERN.isPrefixOf (b :: t) = true
    · rw [if_pos hpre] at h
      cases h
      cases k with
      | zero =>
        rw [List.take_zero, if_neg (by omega)]
        rfl
      | succ m =>
        rw [List.take_succ_cons]
        unfold findPattern
        by_cases h4 : 4 ≤ m + 1
        · have hc : DLT_PATTERN.isPrefixOf (b :: t.take m) = true := by
            rw [← List.take_succ_cons]
            exact isPrefixOf_take hpre (by rw [show DLT_PATTERN.length = 4 from rfl]; omega)
          rw [if_pos hc, if_pos (by omega)]
        · have hc : ¬ DLT_PATTERN.isPrefixOf (b :: t.take m) = true := by
            intro hcc
            have hl := (List.isPrefixOf_iff_prefix.1 hcc).length_le
            rw [show DLT_PATTERN.length = 4 from rfl] at hl
            simp only [List.length_cons, List.length_take] at hl
            omega
          rw [if_neg hc, if_neg (by omega)]
          rw [findPattern_short (by
            simp only [List.length_take]
            omega)]
          rfl
    · rw [if_neg hpre] at h
      cases ht : findPattern t with
      | none => rw [ht] at h; cases h
      | some q =>
        rw [ht, Option.map_some'] at h
        cases h
        cases k with
        | zero =>
          rw [List.take_zero, if_neg (by omega)]
          rfl
        | succ m =>
          rw [List.take_succ_cons]
          unfold findPattern
          have hc : ¬ DLT_PATTERN.isPrefixOf (b :: t.take m) = true := by
            intro hcc
            rw [← List.take_succ_cons] at hcc
            exact hpre (isPrefixOf_of_take hcc)
          rw [if_neg hc, ih ht m]
          by_cases hq : q + 4 ≤ m
          · rw [if_pos hq, if_pos (by omega), Option.map_some']
          · rw [if_neg hq, if_neg (by omega)]
            rfl

theorem completeBeU8_ok {xs r : Bytes} {v : Nat} (h : completeBeU8 xs = .ok r v) :
    xs.length = 1 + r.length := by
  cases xs with
  | nil => cases h
  | cons b t =>
    cases h
    simp only [List.length_cons]
    omega

theorem overall_lt (h : StandardHeader) : h.overall_length < 65536 := by
  unfold StandardHeader.overall_length
  exact Nat.mod_lt _ (by norm_num)

theorem validated_ok_inv {header : StandardHeader} {rem pl : Nat}
    (h : validated_payload_length header rem = .ok pl) :
    calculate_all_headers_length header.header_type_byte ≤ header.overall_length ∧
    header.overall_length ≤ rem ∧
    pl = header.overall_length - calculate_all_headers_length header.header_type_byte := by
  simp only [validated_payload_length] at h
  split at h
  · cases h
  · split at h
    · cases h
    · cases h
      rename_i h1 h2
      exact ⟨by omega, by omega, rfl⟩

theorem validated_incomplete {header : StandardHeader} {rem : Nat}
    (h1 : ¬ header.overall_length <
      calculate_all_headers_length header.header_type_byte)
    (h2 : rem < header.overall_length) :
    validated_payload_length header rem =
      .error (.incompleteParse (some (header.overall_length - rem))) := by
  unfold validated_payload_length
  rw [if_neg h1, if_pos h2]

theorem dlt_ext_step_eq (b : Bool) :
    dlt_ext_step b = fun input =>
      if b = true then
        (dlt_extended_header input).bindR fun rest eh => .ok rest (some eh)
      else .ok input none := by
  funext input
  cases b with
  | false => rfl
  | true =>
    rw [dlt_ext_step, if_pos rfl, if_pos rfl]
    cases he : dlt_extended_header input with
    | err e => rfl
    | ok rest eh => rfl

theorem dlt_ext_step_ExtOk (b : Bool) : ExtOk (dlt_ext_step b) := by
  rw [dlt_ext_step_eq]
  exact ExtOk_ite _
    (bindR_ExtOk dlt_extended_header_ExtOk (fun eh => pure_ExtOk _))
    (pure_ExtOk _)

theorem dlt_ext_step_NoFailPre (b : Bool) : NoFailPre (dlt_ext_step b) := by
  rw [dlt_ext_step_eq]
  exact NoFailPre_ite _
    (bindR_NoFailPre dlt_extended_header_ExtOk dlt_extended_header_NoFailPre
      (fun eh => pure_NoFailPre _))
    (pure_NoFailPre _)

/-- Standard plus optional extended header consume exactly the all-headers
length computed from the reconstructed header-type byte. -/
theorem header_consumption {as r0 aH : Bytes} {header : StandardHeader}
    {ehOpt : Option ExtendedHeader}
    (hstd : dlt_standard_header as = .ok r0 header)
    (hext : dlt_ext_step header.has_extended_header r0 = .ok aH ehOpt) :
    as.length = aH.length + calculate_all_headers_length header.header_type_byte := by
  obtain ⟨htb, ov, hget0, hparse, hle, hver, hend, hhx, hpay, hecu, hsid, hts, hlen⟩ :=
    dlt_standard_header_spec hstd
  have hcalc := calc_header_type_byte header
  rw [hecu, hsid, hts, hhx] at hcalc
  simp only [Bool.cond_eq_ite] at hcalc
  rw [hhx] at hext
  have hextlen : r0.length = aH.length +
      (if (htb &&& WITH_EXTENDED_HEADER_FLAG != 0) = true then 10 else 0) := by
    cases hb : (htb &&& WITH_EXTENDED_HEADER_FLAG != 0) with
    | false =>
      rw [hb] at hext
      rw [dlt_ext_step, if_neg Bool.false_ne_true] at hext
      cases hext
      rw [if_neg Bool.false_ne_true]
      omega
    | true =>
      rw [hb] at hext
      rw [dlt_ext_step, if_pos rfl] at hext
      cases he : dlt_extended_header r0 with
      | err e => rw [he] at hext; cases hext
      | ok r1 eh =>
        rw [he] at hext
        cases hext
        have hes := dlt_extended_header_spec he
        rw [if_pos rfl]
        omega
  rw [hcalc]
  omega

/-- Reduction of the underflow instrumentation along a successful parse. -/
theorem underflowTail_eq {r0 aH : Bytes} {header : StandardHeader}
    {ehOpt : Option ExtendedHeader} {rem pl : Nat}
    {cfg : Option ProcessedDltFilterConfig}
    (hext : dlt_ext_step header.has_extended_header r0 = .ok aH ehOpt)
    (hval : validated_payload_length header rem = .ok pl)
    (hf : filtered_out ehOpt cfg header.ecu_id = false) :
    underflowTail r0 header rem cfg =
      dlt_payload_underflow aH (ehVerbose ehOpt) pl (ehIsControl ehOpt) := by
  rw [underflowTail, hext, hval]
  show (if filtered_out ehOpt cfg header.ecu_id = true then ((false, false) : Bool × Bool)
      else dlt_payload_underflow aH (ehVerbose ehOpt) pl (ehIsControl ehOpt)) =
    dlt_payload_underflow aH (ehVerbose ehOpt) pl (ehIsControl ehOpt)
  rw [hf, if_neg Bool.false_ne_true]

theorem body_std_ok {as r0 : Bytes} {header : StandardHeader}
    (hstd : dlt_standard_header as = .ok r0 header) (sh : Option StorageHeader)
    (cfg : Option ProcessedDltFilterConfig) :
    dlt_message_body as sh cfg = bodyTail r0 header as.length sh cfg := by
  rw [dlt_message_body, hstd]

theorem body_std_err {as : Bytes} {e : NomErr}
    (hstd : dlt_standard_header as = .err e) (sh : Option StorageHeader)
    (cfg : Option ProcessedDltFilterConfig) :
    dlt_message_body as sh cfg = .err e := by
  rw [dlt_message_body, hstd]

theorem bodyTail_ext_ok {r0 aH : Bytes} {header : StandardHeader}
    {ehOpt : Option ExtendedHeader} {rem : Nat}
    (hext : dlt_ext_step header.has_extended_header r0 = .ok aH ehOpt)
    (sh : Option StorageHeader) (cfg : Option ProcessedDltFilterConfig) :
    bodyTail r0 header rem sh cfg = bodyPayload r0 aH ehOpt header rem sh cfg := by
  rw [bodyTail, hext]

theorem bodyTail_ext_err {r0 : Bytes} {header : StandardHeader} {e : NomErr}
    {rem : Nat}
    (hext : dlt_ext_step header.has_extended_header r0 = .err e)
    (sh : Option StorageHeader) (cfg : Option ProcessedDltFilterConfig) :
    bodyTail r0 header rem sh cfg = .err e := by
  rw [bodyTail, hext]

theorem bodyPayload_incomplete (r0 aH : Bytes) (ehOpt : Option ExtendedHeader)
    {header : StandardHeader} {rem : Nat} {m : Option Nat}
    (hval : validated_payload_length header rem = .error (.incompleteParse m))
    (sh : Option StorageHeader) (cfg : Option ProcessedDltFilterConfig) :
    ∃ n, bodyPayload r0 aH ehOpt header rem sh cfg = .err (.incomplete n) := by
  rw [bodyPayload, hval]
  cases m with
  | none => exact ⟨_, rfl⟩
  | some q => exact ⟨_, rfl⟩

theorem bodyPayload_ok_unfiltered {r0 aH : Bytes} {header : StandardHeader}
    {ehOpt : Option ExtendedHeader} {rem pl : Nat} {sh : Option StorageHeader}
    {cfg : Option ProcessedDltFilterConfig}
    (hval : validated_payload_length header rem = .ok pl)
    (hf : filtered_out ehOpt cfg header.ecu_id = false) :
    bodyPayload r0 aH ehOpt header rem sh cfg =
      match dlt_payload header.endianness aH (ehVerbose ehOpt) pl
          (ehArgCount ehOpt) (ehIsControl ehOpt) with
      | .err e => .err e
      | .ok i payload =>
        .ok i (.item { storage_header := sh, header,
                       extended_header := ehOpt, payload }) := by
  rw [bodyPayload, hval, hf]
  rfl

/-- Core of the incomplete-monotonicity property: a decoding body that
consumes its whole input (on byte-valued input, without reaching an
underflowing subtraction) answers `Incomplete` on every truncation of that
input, whatever storage header the truncated run carries. -/
theorem body_prefix_incomplete {as : Bytes} {sh : Option StorageHeader}
    {pm : ParsedMessage}
    (hbytes : bytesOk as)
    (hfull : dlt_message_body as sh none = .ok [] pm)
    (hu : dlt_body_underflow as none = (false, false))
    {k : Nat} (hk : k < as.length) (sh' : Option StorageHeader) :
    ∃ n, dlt_message_body (as.take k) sh' none = .err (.incomplete n) := by
  suffices hsuf : ∃ n, dlt_message_body (as.take k) none none = .err (.incomplete n) by
    obtain ⟨n, hn⟩ := hsuf
    refine ⟨n, ?_⟩
    rw [body_storage, hn]
    rfl
  rw [body_storage] at hfull
  obtain ⟨pm0, hfull0⟩ : ∃ pm0, dlt_message_body as none none = .ok [] pm0 := by
    cases hb : dlt_message_body as none none with
    | err e => rw [hb] at hfull; cases hfull
    | ok r q =>
      rw [hb] at hfull
      cases q <;> (cases hfull; exact ⟨_, rfl⟩)
  clear hfull
  cases hstd : dlt_standard_header as with
  | err e =>
    rw [body_std_err hstd] at hfull0
    cases hfull0
  | ok r0 header =>
  rw [body_std_ok hstd] at hfull0
  cases hext : dlt_ext_step header.has_extended_header r0 with
  | err e =>
    rw [bodyTail_ext_err hext] at hfull0
    cases hfull0
  | ok aH ehOpt =>
  rw [bodyTail_ext_ok hext] at hfull0
  have hfof : filtered_out ehOpt none header.ecu_id = false := rfl
  rcases validated_shape hstd hbytes as.length with hval | ⟨m, hval⟩
  swap
  · obtain ⟨n0, he⟩ := bodyPayload_incomplete r0 aH ehOpt hval none none
    rw [he] at hfull0
    cases hfull0
  rw [bodyPayload_ok_unfiltered hval hfof] at hfull0
  cases hpay : dlt_payload header.endianness aH (ehVerbose ehOpt)
      header.payload_length (ehArgCount ehOpt) (ehIsControl ehOpt) with
  | err e => rw [hpay] at hfull0; cases hfull0
  | ok rest payload =>
  rw [hpay] at hfull0
  have hrest : rest = [] := by cases hfull0; rfl
  subst hrest
  -- arithmetic facts about the full run
  have hHL := header_consumption hstd hext
  have hovlt := overall_lt header
  obtain ⟨h1, h2, h3⟩ := validated_ok_inv hval
  have hplt : header.payload_length < 65536 := by omega
  -- the truncated run: standard header
  have hkl : (as.take k).length = k := by
    rw [List.length_take]
    omega
  cases hstdk : dlt_standard_header (as.take k) with
  | err e =>
    have hnf := dlt_standard_header_NoFailPre as r0 header hstd k
    rw [hstdk] at hnf
    cases e with
    | incomplete n =>
      refine ⟨n, ?_⟩
      rw [body_std_err hstdk]
    | error e0 => simp [IRes.isFail] at hnf
    | failure e0 => simp [IRes.isFail] at hnf
  | ok r0k headerk =>
  obtain ⟨hveq, hrest0⟩ := ext_prefix_ok dlt_standard_header_ExtOk hstd hstdk
  rw [hveq] at hstdk
  have hr0k : r0.take r0k.length = r0k := by
    rw [hrest0, List.take_left]
  -- the truncated run: extended-header step
  cases hextk : dlt_ext_step header.has_extended_header r0k with
  | err e =>
    have hnf := dlt_ext_step_NoFailPre header.has_extended_header r0 aH ehOpt
      hext r0k.length
    rw [hr0k, hextk] at hnf
    cases e with
    | incomplete n =>
      refine ⟨n, ?_⟩
      rw [body_std_ok hstdk, bodyTail_ext_err hextk]
    | error e0 => simp [IRes.isFail] at hnf
    | failure e0 => simp [IRes.isFail] at hnf
  | ok aHk ehOptk =>
  have hextk' : dlt_ext_step header.has_extended_header (r0.take r0k.length) =
      .ok aHk ehOptk := by
    rw [hr0k]
    exact hextk
  obtain ⟨hveq2, hrest2⟩ := ext_prefix_ok (dlt_ext_step_ExtOk _) hext hextk'
  rw [hveq2] at hextk
  have hdropr0 : r0.drop r0k.length = as.drop k := by
    rw [hrest0, List.drop_left]
  rw [hdropr0] at hrest2
  -- lengths of the truncated run
  have hkcons : k = aHk.length +
      calculate_all_headers_length header.header_type_byte := by
    have hc := header_consumption hstdk hextk
    rw [hkl] at hc
    exact hc
  have haHlen : aH.length = aHk.length + (as.length - k) := by
    rw [hrest2]
    simp [List.length_append, List.length_drop]
  have hdk : as.drop k ≠ [] := by
    intro hnil
    have : (as.drop k).length = 0 := by rw [hnil]; rfl
    rw [List.length_drop] at this
    omega
  by_cases hkov : k < header.overall_length
  · -- the length check fails on the truncation: Incomplete
    have hvk : validated_payload_length header (as.take k).length =
        .error (.incompleteParse (some (header.overall_length - (as.take k).length))) :=
      validated_incomplete (by omega) (by rw [hkl]; omega)
    obtain ⟨n0, hbp⟩ := bodyPayload_incomplete r0k aHk ehOpt hvk none none
    refine ⟨n0, ?_⟩
    rw [body_std_ok hstdk, bodyTail_ext_ok hextk, hbp]
  · -- past the declared length: only possible for verbose argument overrun
    push_neg at hkov
    have hvk : validated_payload_length header (as.take k).length =
        .ok header.payload_length := by
      rw [hkl]
      simp only [validated_payload_length]
      rw [if_neg (by omega), if_neg (by omega), h3]
    rw [body_std_ok hstdk, bodyTail_ext_ok hextk,
      bodyPayload_ok_unfiltered hvk hfof]
    cases hvb : ehVerbose ehOpt with
    | true =>
      -- verbose: the argument parser cannot finish inside the truncation
      rw [hvb] at hpay
      rw [dlt_payload, if_pos rfl] at hpay
      cases hcnt : countP (dlt_argument header.endianness) (ehArgCount ehOpt) aH with
      | err e => rw [hcnt] at hpay; cases hpay
      | ok restc args =>
        rw [hcnt] at hpay
        have hrestc : restc = [] := by cases hpay; rfl
        subst hrestc
        have htakeaH : aH.take aHk.length = aHk := by
          rw [hrest2, List.take_left]
        cases hcntk : countP (dlt_argument header.endianness) (ehArgCount ehOpt) aHk with
        | err e =>
          have hnf := countP_NoFailPre (dlt_argument_ExtOk header.endianness)
            (dlt_argument_NoFailPre header.endianness) (ehArgCount ehOpt)
            aH [] args hcnt aHk.length
          rw [htakeaH, hcntk] at hnf
          cases e with
          | incomplete n =>
            refine ⟨n, ?_⟩
            have hPk : dlt_payload header.endianness aHk true
                header.payload_length (ehArgCount ehOpt) (ehIsControl ehOpt) =
                .err (.incomplete n) := by
              rw [dlt_payload, if_pos rfl, hcntk]
              rfl
            rw [hPk]
          | error e0 => simp [IRes.isFail] at hnf
          | failure e0 => simp [IRes.isFail] at hnf
        | ok restk argsk =>
          exfalso
          have hcntk' : countP (dlt_argument header.endianness) (ehArgCount ehOpt)
              (aH.take aHk.length) = .ok restk argsk := by
            rw [htakeaH]
            exact hcntk
          obtain ⟨-, hr3⟩ := ext_prefix_ok
            (countP_ExtOk (dlt_argument_ExtOk header.endianness) (ehArgCount ehOpt))
            hcnt hcntk'
          have hdnil : aH.drop aHk.length = [] := by
            rcases List.append_eq_nil.1 hr3.symm with ⟨-, hnil⟩
            exact hnil
          rw [hrest2, List.drop_left] at hdnil
          exact hdk hdnil
    | false =>
      -- control and non-verbose branches consume exactly the declared
      -- length, so the truncation is always below it: contradiction
      exfalso
      rw [hvb] at hpay
      rw [dlt_payload, if_neg Bool.false_ne_true] at hpay
      cases hct : ehIsControl ehOpt with
      | true =>
        rw [hct, if_pos rfl] at hpay
        by_cases hpl1 : header.payload_length < 1
        · rw [if_pos hpl1] at hpay
          cases hpay
        · rw [if_neg hpl1] at hpay
          cases hcb : completeBeU8 aH with
          | err e =>
            rw [hcb] at hpay
            simp only [IRes.bindR] at hpay
            cases hpay
          | ok tl b =>
            rw [hcb] at hpay
            simp only [IRes.bindR] at hpay
            cases htk : takeP (u16sub header.payload_length 1) tl with
            | err e =>
              rw [htk] at hpay
              simp only [IRes.bindR] at hpay
              cases hpay
            | ok rtk w =>
              rw [htk] at hpay
              simp only [IRes.bindR] at hpay
              have hrtk : rtk = [] := by cases hpay; rfl
              subst hrtk
              obtain ⟨hdr, hlen1, -⟩ := takeP_consume htk
              have hsub : u16sub header.payload_length 1 =
                  header.payload_length - 1 := u16sub_eq (by omega) (by omega)
              have htl0 : (tl.drop (u16sub header.payload_length 1)).length = 0 := by
                rw [← hdr]
                rfl
              rw [List.length_drop] at htl0
              have haH1 := completeBeU8_ok hcb
              omega
      | false =>
        rw [hct, if_neg Bool.false_ne_true] at hpay
        by_cases h4 : aH.length < 4
        · rw [if_pos h4] at hpay
          cases hpay
        · rw [if_neg h4] at hpay
          cases hp32 : parseU32 header.endianness aH with
          | err e =>
            rw [hp32] at hpay
            simp only [IRes.bindR] at hpay
            cases hpay
          | ok r32 mid =>
            rw [hp32] at hpay
            simp only [IRes.bindR] at hpay
            cases htk : takeP (u16sub header.payload_length 4) r32 with
            | err e =>
              rw [htk] at hpay
              simp only [IRes.bindR] at hpay
              cases hpay
            | ok rtk w =>
              rw [htk] at hpay
              simp only [IRes.bindR] at hpay
              have hrtk : rtk = [] := by cases hpay; rfl
              subst hrtk
              -- the underflow instrumentation rules out payload_length < 4
              have hub : dlt_body_underflow as none = (false, false) := hu
              rw [dlt_body_underflow, hstd] at hub
              have hub2 : underflowTail r0 header as.length none = (false, false) := hub
              rw [underflowTail_eq hext hval hfof, hvb, hct] at hub2
              rw [dlt_payload_underflow, if_neg Bool.false_ne_true,
                if_neg Bool.false_ne_true, if_neg h4] at hub2
              have hsnd := congrArg Prod.snd hub2
              simp only [decide_eq_false_iff_not] at hsnd
              have hpl4 : 4 ≤ header.payload_length := by
                by_contra hlt4
                exact absurd (by omega) hsnd
              obtain ⟨hdr, hlen1, -⟩ := takeP_consume htk
              obtain ⟨hr32, hlr32, -⟩ := parseNum_consume hp32
              have hsub : u16sub header.payload_length 4 =
                  header.payload_length - 4 := u16sub_eq (by omega) (by omega)
              have hr0' : (r32.drop (u16sub header.payload_length 4)).length = 0 := by
                rw [← hdr]
                rfl
              rw [List.length_drop] at hr0'
              have hr32len : r32.length = aH.length - 4 := by
                rw [hr32, List.length_drop]
              omega

/-- C1 (amended): on byte-valued input, for every message that
`dlt_message` fully decodes with empty remainder (fixed storage flag, no
filter) *and* whose decode never evaluates an underflowing `u16`
subtraction (`dlt_message_underflow = (false, false)`; release builds wrap
there, debug builds panic), decoding any proper prefix returns the
`IncompleteParse` error variant — never `ParsingHickup` and never
`Unrecoverable`.  Without the underflow proviso the claim fails, see the
counterexample. -/
theorem C1_incomplete_monotonicity {xs : Bytes} (ws : Bool) (k : Nat)
    (hbytes : bytesOk xs)
    (hfull : isFullDecode (dlt_message xs none ws) = true)
    (hund : dlt_message_underflow xs none ws = (false, false))
    (hk0 : 0 < k) (hkN : k < xs.length) :
    exceptIsIncomplete (dlt_message (xs.take k) none ws) = true := by
  have hok : ∃ pm, dlt_message_intern xs none ws = .ok [] pm := by
    rw [dlt_message] at hfull
    cases hi : dlt_message_intern xs none ws with
    | err e => rw [hi] at hfull; cases hfull
    | ok rest pm =>
      rw [hi] at hfull
      have hre : rest.isEmpty = true := hfull
      cases rest with
      | cons a t => cases hre
      | nil => exact ⟨pm, rfl⟩
  suffices hs : ∃ n, dlt_message_intern (xs.take k) none ws = .err (.incomplete n) by
    obtain ⟨n, hn⟩ := hs
    rw [dlt_message, hn]
    cases n <;> rfl
  obtain ⟨pm, hip⟩ := hok
  cases ws with
  | false =>
    have hbody : dlt_message_body xs none none = .ok [] pm := hip
    have hub : dlt_body_underflow xs none = (false, false) := hund
    obtain ⟨n, hbk⟩ := body_prefix_incomplete hbytes hbody hub hkN none
    exact ⟨n, hbk⟩
  | true =>
    rw [dlt_message_intern, if_pos rfl] at hip
    have hund' : dlt_message_underflow xs none true = (false, false) := hund
    rw [dlt_message_underflow, if_pos rfl] at hund'
    cases hsto : dlt_storage_header xs with
    | err e => rw [hsto] at hip; cases hip
    | ok af v =>
      rw [hsto] at hip
      rw [hsto] at hund'
      have hbody : dlt_message_body af (v.map (·.1)) none = .ok [] pm := hip
      have hub : dlt_body_underflow af none = (false, false) := hund'
      rcases dlt_storage_header_spec hsto with ⟨hv0, hr0⟩ | ⟨shv, p, hvv, hfp, hp16, hre⟩
      · subst hr0
        rw [body_nil] at hbody
        cases hbody
      · subst hre
        subst hvv
        have hbody' : dlt_message_body (xs.drop (p + 16)) (some shv) none =
            .ok [] pm := hbody
        have hbytes' : bytesOk (xs.drop (p + 16)) := bytesOk_suffix hbytes _
        obtain ⟨hpre, hp4⟩ := findPattern_isPrefix hfp
        have hkl : (xs.take k).length = k := by
          rw [List.length_take]
          omega
        by_cases hk16 : k < 16
        · refine ⟨.unknown, ?_⟩
          rw [dlt_message_intern, if_pos rfl, dlt_storage_header,
            if_pos (by rw [hkl]; simp only [STORAGE_HEADER_LENGTH]; omega)]
        · push_neg at hk16
          have hfpk := findPattern_take hfp k
          by_cases hp4k : p + 4 ≤ k
          · rw [if_pos hp4k] at hfpk
            have hfwk : forward_to_next_storage_header (xs.take k) =
                some (p, (xs.drop p).take (k - p)) := by
              rw [forward_to_next_storage_header, hfpk, Option.map_some',
                List.drop_take]
            have hsg : dlt_storage_header (xs.take k) =
                storageTail p ((xs.drop p).take (k - p)) :=
              dlt_storage_header_fw
                (by rw [hkl]; simp only [STORAGE_HEADER_LENGTH]; omega) hfwk
            have hprek : DLT_PATTERN.isPrefixOf ((xs.drop p).take (k - p)) = true :=
              isPrefixOf_take hpre
                (by rw [show DLT_PATTERN.length = 4 from rfl]; omega)
            by_cases hp16k : p + 16 ≤ k
            · obtain ⟨sh2, hst2⟩ := storageTail_pattern p hprek (by
                rw [List.length_take, List.length_drop]
                omega)
              have hdt : ((xs.drop p).take (k - p)).drop 16 =
                  (xs.drop (p + 16)).take (k - p - 16) := by
                rw [List.drop_take, List.drop_drop]
              obtain ⟨n, hbk⟩ := body_prefix_incomplete hbytes' hbody' hub
                (k := k - p - 16) (by rw [List.length_drop]; omega) (some sh2)
              refine ⟨n, ?_⟩
              rw [dlt_message_intern, if_pos rfl, hsg, hst2, hdt]
              exact hbk
            · push_neg at hp16k
              obtain ⟨n, hstt⟩ := storageTail_pattern_short p hprek (by
                rw [List.length_take, List.length_drop]
                omega)
              refine ⟨n, ?_⟩
              rw [dlt_message_intern, if_pos rfl, hsg, hstt]
          · rw [if_neg hp4k] at hfpk
            refine ⟨.size 1, ?_⟩
            rw [dlt_message_intern, if_pos rfl, dlt_storage_header,
              if_neg (by rw [hkl]; simp only [STORAGE_HEADER_LENGTH]; omega)]
            rw [forward_to_next_storage_header, hfpk, Option.map_none']
            exact body_nil none none

theorem C1_incomplete_monotonicity_witness :
    bytesOk storedNonVerbose ∧
    isFullDecode (dlt_message storedNonVerbose none true) = true ∧
    dlt_message_underflow storedNonVerbose none true = (false, false) ∧
    0 < 10 ∧ 10 < storedNonVerbose.length ∧
    exceptIsIncomplete (dlt_message (storedNonVerbose.take 10) none true) = true :=
  ⟨by unfold bytesOk; decide, by decide, by decide, by decide, by decide,
   C1_incomplete_monotonicity true 10 (by unfold bytesOk; decide) (by decide)
     (by decide) (by decide) (by decide)⟩

/-- A release-build wrap-around message: `overall_length = 6` declares a
2-byte payload, but 65538 trailing bytes make the wrapped
`payload_length - 4 = 65534` take succeed, so the whole input decodes. -/
def monster : Bytes := [0x00, 0x00, 0x00, 0x06] ++ List.replicate 65538 0xAA

/-- The standard header of `monster` (and of its 6-byte truncation). -/
def monsterHeader : StandardHeader :=
  { version := 0, endianness := .little, has_extended_header := false,
    message_counter := 0, payload_length := 2, ecu_id := none,
    session_id := none, timestamp := none }

/-- C1 counterexample: the monster input is fully decoded by `dlt_message`
(in the release-build wrap-around semantics the model follows), yet its
6-byte proper prefix fails with `Unrecoverable` — not `IncompleteParse` —
because the non-verbose guard raises a nom `Failure`.  The original claim
is therefore false without an underflow-freedom proviso. -/
theorem C1_incomplete_counterexample :
    isFullDecode (dlt_message monster none false) = true ∧
    0 < 6 ∧ 6 < monster.length ∧
    exceptIsUnrecoverable (dlt_message (monster.take 6) none false) = true := by
  have hlen : monster.length = 65542 := by
    rw [monster, List.length_append, List.length_replicate]
    rfl
  have hstdm : dlt_standard_header monster =
      .ok (List.replicate 65538 0xAA) monsterHeader := by
    have h0 : dlt_standard_header [0x00, 0x00, 0x00, 0x06] =
        .ok [] monsterHeader := by decide
    have h1 := dlt_standard_header_ExtOk [0x00, 0x00, 0x00, 0x06]
      (List.replicate 65538 0xAA) [] monsterHeader h0
    rw [List.nil_append] at h1
    exact h1
  have hexm : dlt_ext_step monsterHeader.has_extended_header
      (List.replicate 65538 0xAA) = .ok (List.replicate 65538 0xAA) none := by
    rw [show monsterHeader.has_extended_header = false from rfl, dlt_ext_step,
      if_neg Bool.false_ne_true]
  have hvalm : validated_payload_length monsterHeader monster.length = .ok 2 := by
    rw [hlen]
    decide
  have hgen : ∀ w : Bytes, w.length = 65538 →
      ∃ pc, dlt_payload monsterHeader.endianness w false 2 0 false = .ok [] pc := by
    intro w hw
    rw [dlt_payload, if_neg Bool.false_ne_true, if_neg Bool.false_ne_true,
      if_neg (by omega)]
    rw [parseU32, parseNum, if_neg (by omega)]
    simp only [IRes.bindR]
    rw [show u16sub 2 4 = 65534 from by decide]
    rw [takeP, if_neg (by rw [List.length_drop]; omega)]
    simp only [IRes.bindR]
    rw [show (w.drop 4).drop 65534 = w.drop 65538 from by rw [List.drop_drop]]
    rw [List.drop_eq_nil_of_le (by omega)]
    exact ⟨_, rfl⟩
  have hpaym : ∃ pc, dlt_payload monsterHeader.endianness
      (List.replicate 65538 0xAA) false 2 0 false = .ok [] pc :=
    hgen _ (by rw [List.length_replicate])
  obtain ⟨pc, hp⟩ := hpaym
  have hbody : dlt_message_body monster none none = .ok []
      (.item { storage_header := none, header := monsterHeader,
               extended_header := none, payload := pc }) := by
    rw [body_std_ok hstdm, bodyTail_ext_ok hexm,
      bodyPayload_ok_unfiltered hvalm
        (show filtered_out none none monsterHeader.ecu_id = false from rfl)]
    rw [show (ehVerbose none : Bool) = false from rfl,
      show ehArgCount none = 0 from rfl,
      show (ehIsControl none : Bool) = false from rfl, hp]
  have hint : dlt_message_intern monster none false = .ok []
      (.item { storage_header := none, header := monsterHeader,
               extended_header := none, payload := pc }) := hbody
  have htake : monster.take 6 = [0x00, 0x00, 0x00, 0x06, 0xAA, 0xAA] := by
    rw [monster, List.take_append_eq_append_take, List.take_replicate]
    rfl
  refine ⟨?_, by decide, by rw [hlen]; decide, ?_⟩
  · rw [dlt_message, hint]
    rfl
  · rw [htake]
    decide

/-! ## Claim C5: the counting invariant -/

/-- A valid storage-framed message: it starts with the storage pattern,
`dlt_message` decodes it (with storage header), and its frame length is
exactly the 16-byte storage header plus the standard header's declared
`overall_length`. -/
def ValidStored (v : Bytes) : Prop :=
  DLT_PATTERN.isPrefixOf v = true ∧
  exceptIsOk (dlt_message v none true) = true ∧
  ∃ r h, dlt_standard_header (v.drop 16) = .ok r h ∧
    v.length = 16 + h.overall_length

/-- Concatenation of a list of byte strings. -/
def joinBytes : List Bytes → Bytes
  | [] => []
  | v :: vs => v ++ joinBytes vs

/-- Repeatedly invoke `dlt_consume_msg`, collecting the reported consumed
byte counts; `some l` means the iteration ended with the `None` result
after successes consuming `l`, `none` means an error or exhausted fuel. -/
def consumeAll : Bytes → Nat → Option (List Nat)
  | _, 0 => none
  | input, fuel + 1 =>
    match dlt_consume_msg input with
    | .ok _ none => some []
    | .ok rest (some consumed) => (consumeAll rest fuel).map (consumed :: ·)
    | .err _ => none

/-- One consume step: a valid stored message followed by anything is
skipped in exactly `16 + overall_length = v.length` bytes. -/
theorem consume_step {v : Bytes} (hv : ValidStored v) (rest : Bytes) :
    dlt_consume_msg (v ++ rest) = .ok rest (some v.length) := by
  obtain ⟨hpat, hok, r, h, hstd, hlen⟩ := hv
  have h16 : 16 ≤ v.length := by
    by_contra hlt
    push_neg at hlt
    rw [dlt_message, dlt_message_intern, if_pos rfl, dlt_storage_header] at hok
    rw [if_pos (by simpa [STORAGE_HEADER_LENGTH] using hlt)] at hok
    exact Bool.noConfusion hok
  have hne : (v ++ rest).isEmpty = false := by
    cases v with
    | nil => exact absurd h16 (by decide)
    | cons a t => rfl
  have hpat2 : DLT_PATTERN.isPrefixOf (v ++ rest) = true := by
    rw [List.isPrefixOf_iff_prefix] at hpat ⊢
    exact hpat.trans (List.prefix_append v rest)
  have h16' : 16 ≤ (v ++ rest).length := by
    rw [List.length_append]
    omega
  have hskip := skip_storage_header_pattern hpat2 h16'
  have hdrop16 : (v ++ rest).drop 16 = v.drop 16 ++ rest :=
    List.drop_append_of_le_length h16
  have hstd2 : dlt_standard_header (v.drop 16 ++ rest) = .ok (r ++ rest) h :=
    dlt_standard_header_ExtOk _ _ _ _ hstd
  have hdl : (v.drop 16).length = h.overall_length := by
    rw [List.length_drop]
    omega
  have htk : takeP h.overall_length (v.drop 16 ++ rest) = .ok rest (v.drop 16) := by
    rw [takeP, if_neg (by rw [List.length_append]; omega), ← hdl,
      List.drop_left, List.take_left]
  rw [dlt_consume_msg, hne, if_neg Bool.false_ne_true, hskip]
  simp only [IRes.bindR]
  rw [hdrop16, hstd2]
  simp only [IRes.bindR]
  rw [htk]
  simp only [IRes.bindR]
  rw [hlen]

/-- C5: for a concatenation of valid storage-framed messages, repeatedly
invoking `dlt_consume_msg` yields exactly one success per message — each
consuming exactly that message's 16-byte storage header plus its
`overall_length`, i.e. the message's full length — followed by one final
call that returns `None` on the then-empty remainder. -/
theorem C5_counting_invariant (msgs : List Bytes)
    (hall : ∀ v ∈ msgs, ValidStored v) :
    consumeAll (joinBytes msgs) (msgs.length + 1) =
      some (msgs.map List.length) := by
  induction msgs with
  | nil => rfl
  | cons v vs ih =>
    have hv := hall v (List.mem_cons_self v vs)
    have hrest := ih (fun u hu => hall u (List.mem_cons_of_mem v hu))
    have h1 : consumeAll (v ++ joinBytes vs) (vs.length + 1 + 1) =
        (consumeAll (joinBytes vs) (vs.length + 1)).map (v.length :: ·) := by
      rw [consumeAll, consume_step hv (joinBytes vs)]
    show consumeAll (v ++ joinBytes vs) (vs.length + 1 + 1) =
      some (v.length :: vs.map List.length)
    rw [h1, hrest]
    rfl

theorem C5_counting_invariant_witness :
    (∀ v ∈ [storedNonVerbose, storedNonVerbose], ValidStored v) ∧
    consumeAll (joinBytes [storedNonVerbose, storedNonVerbose])
        ([storedNonVerbose, storedNonVerbose].length + 1) =
      some ([storedNonVerbose, storedNonVerbose].map List.length) := by
  have hone : ValidStored storedNonVerbose := by
    refine ⟨by decide, by decide, [0x01, 0x02, 0x03, 0x04],
      { version := 0, endianness := .little, has_extended_header := false,
        message_counter := 0x2A, payload_length := 4, ecu_id := none,
        session_id := none, timestamp := none }, by decide, by decide⟩
  have hall : ∀ v ∈ [storedNonVerbose, storedNonVerbose], ValidStored v := by
    intro v hv
    rcases List.mem_cons.1 hv with hh | hv2
    · rw [hh]
      exact hone
    · rcases List.mem_cons.1 hv2 with hh | hv3
      · rw [hh]
        exact hone
      · cases hv3
  exact ⟨hall, C5_counting_invariant _ hall⟩

end DltCore
